import Mathlib

/-!
# Verification of the single-line-diagram layout engine

Shallow embedding of the layout core of the `Converter` repository:

* `generateLayout`, `getSystemStats` and the canvas script's
  `getInverterConnectionY` from `src/sld/sld-cli.js` (class `SLDConverter`,
  canvas/daisy-chain layout variant), and
* the layout portion of `convertToSVG` from `src/sld/sld-converter.js`
  (grid/busbar layout variant), modelled as `convertToSVGLayout` returning
  the internal component/connection lists, the final canvas size, and the
  updated options record (the JS method mutates `this.options.width/height`
  in place; we model that mutation as explicit state passing).

Coordinates are modelled as rationals: every arithmetic operation performed
by the source on coordinates (addition, multiplication by integer constants,
halving, `Math.max`/`Math.min`, and the one genuine division in
`getInverterConnectionY`) is exact on the values that occur, so `ℚ` is a
faithful model of the JS number arithmetic used here.
-/

namespace SLD

/-- A PV string from the input JSON: panel model name and panel count
(`{model, length}` in the source). -/
structure PvString where
  model : String
  length : Nat
deriving DecidableEq, Repr

/-- An isolator from the input JSON: an ordered list of PV strings. -/
structure Isolator where
  pvstrings : List PvString
deriving DecidableEq, Repr

/-- An inverter from the input JSON: an ordered list of isolators. -/
structure Inverter where
  isolators : List Isolator
deriving DecidableEq, Repr

/-- The whole system description (the parsed JSON input). -/
structure SystemDescription where
  inverters : List Inverter
deriving DecidableEq, Repr

/-- The converter configuration assembled in the `SLDConverter` constructor. -/
structure Options where
  width : ℚ
  height : ℚ
  margin : ℚ
  componentSpacing : ℚ
  lineThickness : ℚ
  fontSize : ℚ
deriving DecidableEq, Repr

/-- The constructor defaults: width 1200, height 800, margin 50,
componentSpacing 100, lineThickness 2, fontSize 12. -/
def defaultOptions : Options :=
  { width := 1200, height := 800, margin := 50,
    componentSpacing := 100, lineThickness := 2, fontSize := 12 }

/-- Component kinds appearing in `initializeSymbols` of either source file. -/
inductive CompType where
  | inverter
  | isolator
  | pvString
  | busbar
deriving DecidableEq, Repr

/-- Symbol footprint widths from the static `initializeSymbols` table. -/
def symbolWidth : CompType → ℚ
  | CompType.inverter => 80
  | CompType.isolator => 40
  | CompType.pvString => 60
  | CompType.busbar => 20

/-- Symbol footprint heights from the static `initializeSymbols` table. -/
def symbolHeight : CompType → ℚ
  | CompType.inverter => 50
  | CompType.isolator => 40
  | CompType.pvString => 40
  | CompType.busbar => 400

/-- A placed component. `cwidth`/`cheight` model the optional per-component
`width`/`height` fields that only the synthesized busbar of `convertToSVG`
carries; all other components leave them absent (`none`). -/
structure Component where
  id : String
  type : CompType
  x : ℚ
  y : ℚ
  label : String
  cwidth : Option ℚ
  cheight : Option ℚ
deriving DecidableEq, Repr

/-- Connection kinds used by the two layout variants. -/
inductive ConnType where
  | daisy_positive
  | daisy_negative_return
  | busbar_connection
  | dc_connection
  | pv_connection
deriving DecidableEq, Repr

/-- A directed, typed connection between two component identifiers. -/
structure Connection where
  fromId : String
  toId : String
  type : ConnType
deriving DecidableEq, Repr

/-- The layout result `{components, connections, width, height}`. -/
structure LayoutResult where
  components : List Component
  connections : List Connection
  width : ℚ
  height : ℚ
deriving DecidableEq, Repr

/-- Identifier synthesized for the `i`-th inverter. -/
def inverterId (i : Nat) : String := s!"inverter_{i}"

/-- Identifier synthesized for isolator `j` of inverter `i`. -/
def isolatorId (i j : Nat) : String := s!"isolator_{i}_{j}"

/-- Identifier synthesized for panel `p` of string `s` of isolator `j` of
inverter `i` (canvas variant). -/
def pvId (i j s p : Nat) : String := s!"pv_{i}_{j}_{s}_{p}"

/-- Label text shared by both variants for a PV string. -/
def pvLabel (pv : PvString) : String :=
  let m := pv.model
  let n := pv.length
  s!"{m} ({n} panels)"

/-- Inverter label `Inverter ${i+1}`. -/
def inverterLabel (i : Nat) : String :=
  let a := i + 1
  s!"Inverter {a}"

/-- Isolator label of the canvas variant, `Isolator ${i+1}-${j+1}`. -/
def isolatorLabelA (i j : Nat) : String :=
  let a := i + 1
  let b := j + 1
  s!"Isolator {a}-{b}"

/-- Isolator label of the SVG variant, `DC Isolator ${i+1}-${j+1}`. -/
def isolatorLabelB (i j : Nat) : String :=
  let a := i + 1
  let b := j + 1
  s!"DC Isolator {a}-{b}"

/-! ## Variant A: `generateLayout` of `src/sld/sld-cli.js`

Layout constants from the source: `inverterX = margin`,
`isolatorX = inverterX + 180`, `pvStartX = isolatorX + 150`,
`pvStringSpacing = 80`, `isolatorVerticalSpacing = 80`,
`stringVerticalSpacing = 70`, `betweenInvertersSpacing = 200`. -/

/-- One PV panel component of the canvas variant (inner `p` loop body). -/
def panelComp (i j s p : Nat) (pvStartX stringY : ℚ) (pv : PvString) : Component :=
  { id := pvId i j s p
    type := CompType.pvString
    x := pvStartX + (p : ℚ) * 80
    y := stringY
    label := if p = 0 then pvLabel pv else ""
    cwidth := none
    cheight := none }

/-- Components of one PV string: panels at successive X positions. -/
def stringComps (i j s : Nat) (pvStartX stringY : ℚ) (pv : PvString) : List Component :=
  (List.range pv.length).map (fun p => panelComp i j s p pvStartX stringY pv)

/-- Connections of one PV string (emitted only when the string is nonempty):
isolator → first panel (positive), pairwise panel chain (positive), and the
last panel's direct negative return to the isolator. -/
def stringConns (i j s len : Nat) : List Connection :=
  if len = 0 then []
  else
    ({ fromId := isolatorId i j, toId := pvId i j s 0, type := ConnType.daisy_positive } ::
      (List.range (len - 1)).map (fun p =>
        { fromId := pvId i j s p, toId := pvId i j s (p + 1), type := ConnType.daisy_positive }))
    ++ [{ fromId := pvId i j s (len - 1), toId := isolatorId i j,
          type := ConnType.daisy_negative_return }]

/-- The per-isolator string loop of `generateLayout`: lays out each string at
`isolatorY + stringYoffset`, advancing `stringYoffset` by 70 per string.
Returns the components, the connections, and the final `stringYoffset`. -/
def stringsLayout (i j : Nat) (pvStartX isolatorY : ℚ) :
    Nat → ℚ → List PvString → List Component × List Connection × ℚ
  | _, yoff, [] => ([], [], yoff)
  | s, yoff, pv :: rest =>
    let stringY := isolatorY + yoff
    let r := stringsLayout i j pvStartX isolatorY (s + 1) (yoff + 70) rest
    (stringComps i j s pvStartX stringY pv ++ r.1,
     stringConns i j s pv.length ++ r.2.1,
     r.2.2)

/-- The isolator component of the canvas variant. -/
def isolatorComp (i j : Nat) (isolatorX isolatorY : ℚ) : Component :=
  { id := isolatorId i j
    type := CompType.isolator
    x := isolatorX
    y := isolatorY
    label := isolatorLabelA i j
    cwidth := none
    cheight := none }

/-- The per-inverter isolator loop of `generateLayout`: isolator `j` at
`isolatorY`, its strings below-right, then `isolatorY` advances by the final
`stringYoffset` plus the isolator vertical spacing 80. -/
def isolatorsLayout (i : Nat) (isolatorX pvStartX : ℚ) :
    Nat → ℚ → List Isolator → List Component × List Connection
  | _, _, [] => ([], [])
  | j, isolatorY, iso :: rest =>
    let r := stringsLayout i j pvStartX isolatorY 0 0 iso.pvstrings
    let tail := isolatorsLayout i isolatorX pvStartX (j + 1) (isolatorY + r.2.2 + 80) rest
    (isolatorComp i j isolatorX isolatorY :: (r.1 ++ tail.1),
     ({ fromId := inverterId i, toId := isolatorId i j, type := ConnType.daisy_positive } ::
      { fromId := isolatorId i j, toId := inverterId i, type := ConnType.daisy_negative_return } ::
      r.2.1) ++ tail.2)

/-- `numStrings = isolator.pvstrings.length || 1` from the block-height loop. -/
def numStringsA (iso : Isolator) : Nat :=
  if iso.pvstrings.length = 0 then 1 else iso.pvstrings.length

/-- Vertical extent of one inverter block in the canvas variant:
sum over isolators of `numStrings * 70 + 80`, floored at 140. -/
def blockHeightA (inv : Inverter) : ℚ :=
  max ((inv.isolators.map (fun iso => (numStringsA iso : ℚ) * 70 + 80)).sum) 140

/-- One inverter block of the canvas variant: the vertically-centered inverter
component followed by its isolators and panels.  The block's connections all
come from the isolator loop. -/
def blockA (margin : ℚ) (i : Nat) (currentY : ℚ) (inv : Inverter) :
    List Component × List Connection :=
  let bh := blockHeightA inv
  let centerY := currentY + bh / 2
  let invComp : Component :=
    { id := inverterId i
      type := CompType.inverter
      x := margin
      y := centerY - symbolHeight CompType.inverter / 2
      label := inverterLabel i
      cwidth := none
      cheight := none }
  let r := isolatorsLayout i (margin + 180) (margin + 180 + 150) 0 (centerY - bh / 2) inv.isolators
  (invComp :: r.1, r.2)

/-- The outer inverter loop of `generateLayout`: blocks stacked top to bottom,
the Y cursor advancing by each block's height plus 200. -/
def invertersLayout (margin : ℚ) : Nat → ℚ → List Inverter → List Component × List Connection
  | _, _, [] => ([], [])
  | i, currentY, inv :: rest =>
    let b := blockA margin i currentY inv
    let r := invertersLayout margin (i + 1) (currentY + blockHeightA inv + 200) rest
    (b.1 ++ r.1, b.2 ++ r.2)

/-- `maxRight` accumulation of `generateLayout` (symbol footprints only). -/
def maxRightA (comps : List Component) : ℚ :=
  comps.foldl (fun acc c => max acc (c.x + symbolWidth c.type)) 0

/-- `maxBottom` accumulation of `generateLayout` (symbol footprints only). -/
def maxBottomA (comps : List Component) : ℚ :=
  comps.foldl (fun acc c => max acc (c.y + symbolHeight c.type)) 0

/-- `generateLayout` of `src/sld/sld-cli.js`: components and connections from
the inverter loop started at `y = margin + 120`, and the canvas expanded to
fit content (`max` with the configured minimum). -/
def generateLayout (opts : Options) (jsonData : SystemDescription) : LayoutResult :=
  let r := invertersLayout opts.margin 0 (opts.margin + 120) jsonData.inverters
  { components := r.1
    connections := r.2
    width := max opts.width (maxRightA r.1 + opts.margin + 80)
    height := max opts.height (maxBottomA r.1 + opts.margin + 120) }

/-- `generateLayout` as an explicit state transformer on the converter's
options: the JS method reads `this.options` but never writes any field of the
converter, so the state component is returned unchanged. -/
def generateLayoutStep (opts : Options) (jsonData : SystemDescription) :
    LayoutResult × Options :=
  (generateLayout opts jsonData, opts)

/-- `getSystemStats` of either source file: counts accumulated by the nested
`forEach` traversal. -/
structure SystemStats where
  inverters : Nat
  isolators : Nat
  pvStrings : Nat
  totalPanels : Nat
deriving DecidableEq, Repr

/-- `getSystemStats`: inverter/isolator/string/panel counts of the input. -/
def getSystemStats (jsonData : SystemDescription) : SystemStats :=
  { inverters := jsonData.inverters.length
    isolators := (jsonData.inverters.map (fun inv => inv.isolators.length)).sum
    pvStrings := (jsonData.inverters.map (fun inv =>
      (inv.isolators.map (fun iso => iso.pvstrings.length)).sum)).sum
    totalPanels := (jsonData.inverters.map (fun inv =>
      (inv.isolators.map (fun iso => (iso.pvstrings.map PvString.length).sum)).sum)).sum }

/-! ## Variant B: the layout portion of `convertToSVG` in
`src/sld/sld-converter.js`

Layout constants from the source: `busbarX = margin`,
`inverterX = busbarX + 200`, `isolatorX = inverterX + 200`,
`pvStringX = isolatorX + 220`, `pvStringsPerRow = 4`,
`pvStringSpacing = 110`, `pvStringRowSpacing = 90`,
`betweenInvertersSpacing = 150`. -/

/-- Identifier synthesized for string `k` of isolator `j` of inverter `i`
(SVG variant: one component per string, no per-panel components). -/
def pvIdB (i j k : Nat) : String := s!"pv_{i}_{j}_{k}"

/-- `Math.ceil(pvstrings.length / 4)` on natural inputs. -/
def rowsB (iso : Isolator) : Nat := (iso.pvstrings.length + 3) / 4

/-- One PV-string component of the SVG variant, placed on a 4-column grid
(`row = floor(k/4)`, `col = k mod 4`). -/
def pvGridComp (i j k : Nat) (startX isolatorY : ℚ) (pv : PvString) : Component :=
  { id := pvIdB i j k
    type := CompType.pvString
    x := startX + ((k % 4 : Nat) : ℚ) * 110
    y := isolatorY + 80 + ((k / 4 : Nat) : ℚ) * 90
    label := pvLabel pv
    cwidth := none
    cheight := none }

/-- The PV loop body of the SVG variant, component stream (`k` is the running
string index within the isolator). -/
def pvGridList (i j : Nat) (startX isolatorY : ℚ) : Nat → List PvString → List Component
  | _, [] => []
  | k, pv :: rest =>
    pvGridComp i j k startX isolatorY pv :: pvGridList i j startX isolatorY (k + 1) rest

/-- The PV loop body of the SVG variant, connection stream: each string is
connected to its isolator by a `pv_connection`. -/
def pvConnList (i j : Nat) : Nat → List PvString → List Connection
  | _, [] => []
  | k, _ :: rest =>
    { fromId := pvIdB i j k, toId := isolatorId i j, type := ConnType.pv_connection } ::
      pvConnList i j (k + 1) rest

/-- The isolator component of the SVG variant. -/
def isolatorCompB (i j : Nat) (isolatorX isolatorY : ℚ) : Component :=
  { id := isolatorId i j
    type := CompType.isolator
    x := isolatorX
    y := isolatorY
    label := isolatorLabelB i j
    cwidth := none
    cheight := none }

/-- The per-inverter isolator loop of `convertToSVG`: isolator `j` at
`isolatorY` with a `dc_connection` to its inverter, its strings on a grid
below-right (`startX = pvStringX - ((4-1)*110)/2`), and `isolatorY`
advancing by `rows * 90 + 120`. -/
def isolatorsLayoutB (i : Nat) (isolatorX pvStringX : ℚ) :
    Nat → ℚ → List Isolator → List Component × List Connection
  | _, _, [] => ([], [])
  | j, isolatorY, iso :: rest =>
    let startX := pvStringX - ((4 - 1 : ℚ) * 110) / 2
    let tail := isolatorsLayoutB i isolatorX pvStringX (j + 1)
      (isolatorY + ((rowsB iso : ℚ) * 90 + 120)) rest
    (isolatorCompB i j isolatorX isolatorY ::
      (pvGridList i j startX isolatorY 0 iso.pvstrings ++ tail.1),
     ({ fromId := isolatorId i j, toId := inverterId i, type := ConnType.dc_connection } ::
      pvConnList i j 0 iso.pvstrings) ++ tail.2)

/-- Vertical extent of one inverter block in the SVG variant:
sum over isolators of `rows * 90 + 120`, floored at 140. -/
def blockHeightB (inv : Inverter) : ℚ :=
  max ((inv.isolators.map (fun iso => (rowsB iso : ℚ) * 90 + 120)).sum) 140

/-- One inverter block of the SVG variant: the vertically-centered inverter
(preceded, in the connection stream, by its `busbar_connection`) followed by
its isolators and PV-string grid components. -/
def blockB (margin : ℚ) (i : Nat) (currentY : ℚ) (inv : Inverter) :
    List Component × List Connection :=
  let bh := blockHeightB inv
  let centerY := currentY + bh / 2
  let invComp : Component :=
    { id := inverterId i
      type := CompType.inverter
      x := margin + 200
      y := centerY - symbolHeight CompType.inverter / 2
      label := inverterLabel i
      cwidth := none
      cheight := none }
  let r := isolatorsLayoutB i (margin + 200 + 200) (margin + 200 + 200 + 220) 0
    (centerY - bh / 2) inv.isolators
  (invComp :: r.1,
   { fromId := "busbar_main", toId := inverterId i, type := ConnType.busbar_connection } :: r.2)

/-- The outer inverter loop of `convertToSVG`, also folding the
`layoutTop`/`layoutBottom` extent trackers (they start at `+∞`/`-∞` in the
source, modelled as `none`, and `Math.min`/`Math.max` against a finite value
always yields a finite value). -/
def invertersLayoutB (margin : ℚ) :
    Nat → ℚ → Option ℚ → Option ℚ → List Inverter →
    List Component × List Connection × Option ℚ × Option ℚ
  | _, _, top, bot, [] => ([], [], top, bot)
  | i, currentY, top, bot, inv :: rest =>
    let bh := blockHeightB inv
    let centerY := currentY + bh / 2
    let b := blockB margin i currentY inv
    let top2 : Option ℚ :=
      some (match top with
        | none => centerY - bh / 2
        | some t => min t (centerY - bh / 2))
    let bot2 : Option ℚ :=
      some (match bot with
        | none => centerY + bh / 2
        | some v => max v (centerY + bh / 2))
    let r := invertersLayoutB margin (i + 1) (currentY + bh + 150) top2 bot2 rest
    (b.1 ++ r.1, b.2 ++ r.2.1, r.2.2)

/-- The synthesized busbar as it stands at the end of `convertToSVG`: its
`y`/`height` have been overwritten from the tracked layout extent whenever at
least one inverter was processed (`layoutTop` finite), and otherwise keep the
initial `y = margin`, `height = 100` (`busbarPadding = 60`). -/
def busbarFinal (opts : Options) : Option ℚ → Option ℚ → Component
  | some t, some v =>
    { id := "busbar_main"
      type := CompType.busbar
      x := opts.margin
      y := t - 60
      label := "Main Bus"
      cwidth := some 20
      cheight := some ((v - t) + 60 * 2) }
  | _, _ =>
    { id := "busbar_main"
      type := CompType.busbar
      x := opts.margin
      y := opts.margin
      label := "Main Bus"
      cwidth := some 20
      cheight := some 100 }

/-- JS `a || d` on an optional numeric field: absent or zero falls back. -/
def orElseNum (o : Option ℚ) (d : ℚ) : ℚ :=
  match o with
  | none => d
  | some v => if v = 0 then d else v

/-- Effective bounding-box width used by `convertToSVG`'s canvas expansion:
`c.type === 'busbar' ? (c.width || 20) : symbol.width`. -/
def effWidth (c : Component) : ℚ :=
  if c.type = CompType.busbar then orElseNum c.cwidth 20 else symbolWidth c.type

/-- Effective bounding-box height used by `convertToSVG`'s canvas expansion:
`c.type === 'busbar' ? (c.height || symbol.height) : symbol.height`. -/
def effHeight (c : Component) : ℚ :=
  if c.type = CompType.busbar then orElseNum c.cheight (symbolHeight c.type)
  else symbolHeight c.type

/-- `maxRight` accumulation of `convertToSVG` (effective footprints). -/
def maxRightB (comps : List Component) : ℚ :=
  comps.foldl (fun acc c => max acc (c.x + effWidth c)) 0

/-- `maxBottom` accumulation of `convertToSVG` (effective footprints). -/
def maxBottomB (comps : List Component) : ℚ :=
  comps.foldl (fun acc c => max acc (c.y + effHeight c)) 0

/-- The layout portion of `convertToSVG` (everything before `generateSVG` is
invoked): returns the layout result and the converter options as they stand
afterwards — the source assigns the expanded canvas size back onto
`this.options.width`/`this.options.height`. -/
def convertToSVGLayout (opts : Options) (jsonData : SystemDescription) :
    LayoutResult × Options :=
  let r := invertersLayoutB opts.margin 0 (opts.margin + 120) none none jsonData.inverters
  let comps := busbarFinal opts r.2.2.1 r.2.2.2 :: r.1
  let w := max opts.width (maxRightB comps + opts.margin + 80)
  let h := max opts.height (maxBottomB comps + opts.margin + 120)
  ({ components := comps, connections := r.2.1, width := w, height := h },
   { opts with width := w, height := h })

/-! ## Connection routing: `getInverterConnectionY` from the canvas script
emitted by `convertToCanvas` in `src/sld/sld-cli.js`. -/

/-- `clamp(value, min, max) = Math.max(min, Math.min(max, value))`. -/
def clamp (value lo hi : ℚ) : ℚ := max lo (min hi value)

/-- The slot record stored in `isolatorSlotLookup` (vertical rank of an
isolator among the isolators of its inverter, and the sibling count). -/
structure SlotInfo where
  slotIndex : Nat
  totalSlots : Nat
deriving DecidableEq, Repr

/-- `getInverterConnectionY` from the canvas script: spreads
`totalSlots * 2` connection points evenly across the inverter symbol's
height (margin 10 at each end), two per slot (positive first), clamped to
the body bounds `[y + 4, y + height - 4]`.  `polarity` is the JS string
argument (`"positive"` or anything else). -/
def getInverterConnectionY (inverterComp : Component) (slotInfo : SlotInfo)
    (polarity : String) : ℚ :=
  let inverterHeight := symbolHeight inverterComp.type
  let marginLocal : ℚ := 10
  let totalSlots := max 1 slotInfo.totalSlots
  let totalConnections := totalSlots * 2
  let connectionIndex := slotInfo.slotIndex * 2 + (if polarity = "positive" then 0 else 1)
  if totalConnections ≤ 1 then
    inverterComp.y + inverterHeight / 2
  else
    let availableHeight := max 0 (inverterHeight - marginLocal * 2)
    let step :=
      if 1 < totalConnections then availableHeight / ((totalConnections : ℚ) - 1) else 0
    clamp (inverterComp.y + marginLocal + step * (connectionIndex : ℚ))
      (inverterComp.y + 4) (inverterComp.y + inverterHeight - 4)

/-! ## Shared helper lemmas -/

/-- The initial accumulator never exceeds a `foldl max` accumulation. -/
theorem le_foldl_max (g : Component → ℚ) (l : List Component) (a : ℚ) :
    a ≤ l.foldl (fun acc c => max acc (g c)) a := by
  induction l generalizing a with
  | nil => exact le_refl a
  | cons c t ih => exact le_trans (le_max_left a (g c)) (ih (max a (g c)))

/-- Every list member is bounded by a `foldl max` accumulation over it. -/
theorem mem_le_foldl_max (g : Component → ℚ) (l : List Component) :
    ∀ (a : ℚ) (c : Component), c ∈ l → g c ≤ l.foldl (fun acc d => max acc (g d)) a := by
  induction l with
  | nil => intro _ _ h; cases h
  | cons d t ih =>
    intro a c h
    cases h with
    | head => exact le_trans (le_max_right a (g d)) (le_foldl_max g t (max a (g d)))
    | tail _ h' => exact ih (max a (g d)) c h'

/-- Fusion of the source's `forEach`-style max accumulation with a mapped
`foldl max`. -/
theorem foldl_max_eq_map (g : Component → ℚ) (l : List Component) (a : ℚ) :
    l.foldl (fun acc c => max acc (g c)) a = (l.map g).foldl max a := by
  induction l generalizing a with
  | nil => rfl
  | cons c t ih => exact ih (max a (g c))

/-- Components that are not busbars have the symbol-table footprint width. -/
theorem effWidth_of_ne_busbar (c : Component) (h : c.type ≠ CompType.busbar) :
    effWidth c = symbolWidth c.type := by
  unfold effWidth
  rw [if_neg h]

/-- Components that are not busbars have the symbol-table footprint height. -/
theorem effHeight_of_ne_busbar (c : Component) (h : c.type ≠ CompType.busbar) :
    effHeight c = symbolHeight c.type := by
  unfold effHeight
  rw [if_neg h]

/-! ## Concrete inputs used by witnesses and counterexamples -/

/-- The example input of the spec:
`{inverters:[{isolators:[{pvstrings:[{model:"X",length:3}]}]}]}`. -/
def sysExample : SystemDescription := ⟨[⟨[⟨[⟨"X", 3⟩]⟩]⟩]⟩

/-- Two inverters, each with one single-string isolator: a system tall enough
that `convertToSVG` enlarges the configured canvas height. -/
def sysStateLeak : SystemDescription := ⟨[⟨[⟨[⟨"A", 1⟩]⟩]⟩, ⟨[⟨[⟨"B", 1⟩]⟩]⟩]⟩

/-! ## Claim C3 -/

/-- Claim C3: on `{inverters:[{isolators:[{pvstrings:[{model:"X",length:3}]}]}]}`,
`generateLayout` produces exactly 1 inverter component, 1 isolator component
and 3 panel components with pairwise-distinct identifiers; panel 0 carries the
label `X (3 panels)` while panels 1 and 2 carry the empty label; and the
connection list contains the positive isolator→panel0 edge, the pairwise
positive chain panel0→panel1→panel2, and the negative return panel2→isolator. -/
theorem c3_example_scenario :
    (((generateLayout defaultOptions sysExample).components.filter
        (fun c => decide (c.type = CompType.inverter))).length = 1
      ∧ ((generateLayout defaultOptions sysExample).components.filter
        (fun c => decide (c.type = CompType.isolator))).length = 1
      ∧ ((generateLayout defaultOptions sysExample).components.filter
        (fun c => decide (c.type = CompType.pvString))).length = 3)
    ∧ (((generateLayout defaultOptions sysExample).components.filter
        (fun c => decide (c.type = CompType.pvString))).map Component.id).Nodup
    ∧ ((generateLayout defaultOptions sysExample).components.filter
        (fun c => decide (c.type = CompType.pvString))).map Component.label
        = ["X (3 panels)", "", ""]
    ∧ { fromId := isolatorId 0 0, toId := pvId 0 0 0 0, type := ConnType.daisy_positive }
        ∈ (generateLayout defaultOptions sysExample).connections
    ∧ { fromId := pvId 0 0 0 0, toId := pvId 0 0 0 1, type := ConnType.daisy_positive }
        ∈ (generateLayout defaultOptions sysExample).connections
    ∧ { fromId := pvId 0 0 0 1, toId := pvId 0 0 0 2, type := ConnType.daisy_positive }
        ∈ (generateLayout defaultOptions sysExample).connections
    ∧ { fromId := pvId 0 0 0 2, toId := isolatorId 0 0, type := ConnType.daisy_negative_return }
        ∈ (generateLayout defaultOptions sysExample).connections := by
  decide

/-! ## Claim C6 -/

/-- Claim C6, amended: `generateLayout` leaves the converter's options
unchanged, and `convertToSVG` leaves every option other than `width`/`height`
unchanged while only ever enlarging `width` and `height` to the computed
canvas size (so the configuration is not left unchanged in general). -/
theorem c6_state_frame (opts : Options) (sys : SystemDescription) :
    (generateLayoutStep opts sys).2 = opts
    ∧ (convertToSVGLayout opts sys).2.margin = opts.margin
    ∧ (convertToSVGLayout opts sys).2.componentSpacing = opts.componentSpacing
    ∧ (convertToSVGLayout opts sys).2.lineThickness = opts.lineThickness
    ∧ (convertToSVGLayout opts sys).2.fontSize = opts.fontSize
    ∧ opts.width ≤ (convertToSVGLayout opts sys).2.width
    ∧ opts.height ≤ (convertToSVGLayout opts sys).2.height := by
  refine ⟨rfl, rfl, rfl, rfl, rfl, ?_, ?_⟩
  · exact le_max_left opts.width _
  · exact le_max_left opts.height _

/-- Claim C6, counterexample to the claim as stated: on `sysStateLeak` with
the default configuration, invoking the `convertToSVG` layout pass changes
the converter's options (the stored canvas height grows from 800 to 970). -/
theorem c6_counterexample :
    (convertToSVGLayout defaultOptions sysStateLeak).2 ≠ defaultOptions := by
  intro h
  have hh : (convertToSVGLayout defaultOptions sysStateLeak).2.height
      = defaultOptions.height := by rw [h]
  rw [show defaultOptions.height = 800 from rfl] at hh
  norm_num [convertToSVGLayout, invertersLayoutB, blockB, blockHeightB, isolatorsLayoutB,
    pvGridList, pvConnList, busbarFinal, maxRightB, maxBottomB, effWidth, effHeight,
    orElseNum, rowsB, isolatorCompB, pvGridComp, symbolWidth, symbolHeight,
    defaultOptions, sysStateLeak, max_def, min_def] at hh

/-! ## Claim C7 -/

/-- Claim C7: both layout passes are deterministic — two calls with equal
input and equal configuration produce equal layout results (identifiers,
coordinates, connection lists and order alike). -/
theorem c7_determinism (opts₁ opts₂ : Options) (sys₁ sys₂ : SystemDescription)
    (ho : opts₁ = opts₂) (hs : sys₁ = sys₂) :
    generateLayout opts₁ sys₁ = generateLayout opts₂ sys₂
    ∧ convertToSVGLayout opts₁ sys₁ = convertToSVGLayout opts₂ sys₂ := by
  subst ho
  subst hs
  exact ⟨rfl, rfl⟩

/-- Claim C7, witness: the determinism theorem applied at the concrete
example system and the default configuration. -/
theorem c7_determinism_witness :
    generateLayout defaultOptions sysExample = generateLayout defaultOptions sysExample
    ∧ convertToSVGLayout defaultOptions sysExample
      = convertToSVGLayout defaultOptions sysExample :=
  c7_determinism defaultOptions defaultOptions sysExample sysExample rfl rfl

/-! ## Claim C5 -/

/-- For every isolator index within range, the canvas-variant isolator loop
emits the positive inverter→isolator edge and the negative isolator→inverter
return edge. -/
theorem isolatorsLayout_conns_mem (i : Nat) (iX pX : ℚ) :
    ∀ (isos : List Isolator) (jstart : Nat) (isoY : ℚ) (jdx : Nat), jdx < isos.length →
    ({ fromId := inverterId i, toId := isolatorId i (jstart + jdx),
        type := ConnType.daisy_positive } : Connection)
      ∈ (isolatorsLayout i iX pX jstart isoY isos).2
    ∧ ({ fromId := isolatorId i (jstart + jdx), toId := inverterId i,
          type := ConnType.daisy_negative_return } : Connection)
      ∈ (isolatorsLayout i iX pX jstart isoY isos).2 := by
  intro isos
  induction isos with
  | nil =>
    intro jstart isoY jdx h
    cases h
  | cons iso rest ih =>
    intro jstart isoY jdx h
    cases jdx with
    | zero =>
      constructor
      · simp [isolatorsLayout]
      · simp [isolatorsLayout]
    | succ jd =>
      have h' : jd < rest.length := Nat.lt_of_succ_lt_succ h
      have hidx : jstart + (jd + 1) = (jstart + 1) + jd := by omega
      rw [hidx]
      have hm := ih (jstart + 1)
        (isoY + (stringsLayout i jstart pX isoY 0 0 iso.pvstrings).2.2 + 80) jd h'
      constructor
      · simp only [isolatorsLayout]
        exact List.mem_append_right _ hm.1
      · simp only [isolatorsLayout]
        exact List.mem_append_right _ hm.2

/-- For every inverter and isolator index within range, the canvas-variant
inverter loop emits both home-run edges with the inverter→isolator positive
direction and the isolator→inverter negative return direction. -/
theorem invertersLayout_conns_mem (m : ℚ) :
    ∀ (invs : List Inverter) (istart : Nat) (curY : ℚ) (idx jdx : Nat)
      (hi : idx < invs.length),
      jdx < (invs.get ⟨idx, hi⟩).isolators.length →
    ({ fromId := inverterId (istart + idx), toId := isolatorId (istart + idx) jdx,
        type := ConnType.daisy_positive } : Connection)
      ∈ (invertersLayout m istart curY invs).2
    ∧ ({ fromId := isolatorId (istart + idx) jdx, toId := inverterId (istart + idx),
          type := ConnType.daisy_negative_return } : Connection)
      ∈ (invertersLayout m istart curY invs).2 := by
  intro invs
  induction invs with
  | nil =>
    intro istart curY idx jdx hi _
    cases hi
  | cons inv rest ih =>
    intro istart curY idx jdx hi hj
    cases idx with
    | zero =>
      have hm := isolatorsLayout_conns_mem istart (m + 180) (m + 180 + 150)
        inv.isolators 0 (curY + blockHeightA inv / 2 - blockHeightA inv / 2) jdx hj
      rw [Nat.add_zero]
      constructor
      · simp only [invertersLayout, blockA]
        exact List.mem_append_left _ ((Nat.zero_add jdx) ▸ hm.1)
      · simp only [invertersLayout, blockA]
        exact List.mem_append_left _ ((Nat.zero_add jdx) ▸ hm.2)
    | succ idm =>
      have hi' : idm < rest.length := Nat.lt_of_succ_lt_succ hi
      have hidx : istart + (idm + 1) = (istart + 1) + idm := by omega
      rw [hidx]
      have hm := ih (istart + 1) (curY + blockHeightA inv + 200) idm jdx hi' hj
      constructor
      · simp only [invertersLayout]
        exact List.mem_append_right _ hm.1
      · simp only [invertersLayout]
        exact List.mem_append_right _ hm.2

/-- Claim C5, counterexample to the claim as stated: on the example system,
`generateLayout` emits no `daisy_positive` connection directed from the
isolator to its inverter (the positive home-run edge runs inverter→isolator). -/
theorem c5_counterexample :
    ¬ (({ fromId := isolatorId 0 0, toId := inverterId 0,
          type := ConnType.daisy_positive } : Connection)
        ∈ (generateLayout defaultOptions sysExample).connections) := by
  decide

/-- Claim C5, amended: for every isolator of every input, `generateLayout`
emits both home-run conductors — a `daisy_positive` edge directed from the
inverter to the isolator, and a `daisy_negative_return` edge directed from
the isolator to the inverter. -/
theorem c5_home_run_edges (opts : Options) (sys : SystemDescription) (i j : Nat)
    (hi : i < sys.inverters.length)
    (hj : j < (sys.inverters.get ⟨i, hi⟩).isolators.length) :
    ({ fromId := inverterId i, toId := isolatorId i j,
        type := ConnType.daisy_positive } : Connection)
      ∈ (generateLayout opts sys).connections
    ∧ ({ fromId := isolatorId i j, toId := inverterId i,
          type := ConnType.daisy_negative_return } : Connection)
      ∈ (generateLayout opts sys).connections := by
  have hm := invertersLayout_conns_mem opts.margin sys.inverters 0
    (opts.margin + 120) i j hi hj
  rw [Nat.zero_add] at hm
  exact hm

/-- Claim C5, witness: the amended theorem applied at the example system,
inverter 0, isolator 0. -/
theorem c5_home_run_edges_witness :
    ({ fromId := inverterId 0, toId := isolatorId 0 0,
        type := ConnType.daisy_positive } : Connection)
      ∈ (generateLayout defaultOptions sysExample).connections
    ∧ ({ fromId := isolatorId 0 0, toId := inverterId 0,
          type := ConnType.daisy_negative_return } : Connection)
      ∈ (generateLayout defaultOptions sysExample).connections :=
  c5_home_run_edges defaultOptions sysExample 0 0 (by decide) (by decide)

/-! ## Counting lemmas for the canvas variant -/

/-- Every component produced by the string loop is a PV panel. -/
theorem stringsLayout_comps_type (i j : Nat) (pX isoY : ℚ) :
    ∀ (strs : List PvString) (s : Nat) (yoff : ℚ),
    ∀ c ∈ (stringsLayout i j pX isoY s yoff strs).1, c.type = CompType.pvString := by
  intro strs
  induction strs with
  | nil =>
    intro s yoff c hc
    cases hc
  | cons pv rest ih =>
    intro s yoff c hc
    rw [stringsLayout] at hc
    rcases List.mem_append.1 hc with h | h
    · rcases List.mem_map.1 h with ⟨p, _, rfl⟩
      rfl
    · exact ih (s + 1) (yoff + 70) c h

/-- The string loop produces one component per panel. -/
theorem stringsLayout_length (i j : Nat) (pX isoY : ℚ) :
    ∀ (strs : List PvString) (s : Nat) (yoff : ℚ),
    (stringsLayout i j pX isoY s yoff strs).1.length
      = (strs.map PvString.length).sum := by
  intro strs
  induction strs with
  | nil => intro s yoff; rfl
  | cons pv rest ih =>
    intro s yoff
    rw [stringsLayout]
    simp [stringComps, ih (s + 1) (yoff + 70)]

/-- The final `stringYoffset` of the string loop is 70 per string. -/
theorem stringsLayout_yoff (i j : Nat) (pX isoY : ℚ) :
    ∀ (strs : List PvString) (s : Nat) (yoff : ℚ),
    (stringsLayout i j pX isoY s yoff strs).2.2 = yoff + 70 * strs.length := by
  intro strs
  induction strs with
  | nil =>
    intro s yoff
    simp [stringsLayout]
  | cons pv rest ih =>
    intro s yoff
    rw [stringsLayout]
    have := ih (s + 1) (yoff + 70)
    simp only [List.length_cons] at this ⊢
    rw [this]
    push_cast
    ring

/-- Component counts of the isolator loop, by type, and its total length. -/
theorem isolatorsLayout_counts (i : Nat) (iX pX : ℚ) :
    ∀ (isos : List Isolator) (j : Nat) (isoY : ℚ),
    ((isolatorsLayout i iX pX j isoY isos).1.countP
        (fun c => decide (c.type = CompType.isolator)) = isos.length
    ∧ (isolatorsLayout i iX pX j isoY isos).1.countP
        (fun c => decide (c.type = CompType.inverter)) = 0
    ∧ (isolatorsLayout i iX pX j isoY isos).1.countP
        (fun c => decide (c.type = CompType.pvString))
        = (isos.map (fun iso => (iso.pvstrings.map PvString.length).sum)).sum)
    ∧ (isolatorsLayout i iX pX j isoY isos).1.length
        = isos.length + (isos.map (fun iso => (iso.pvstrings.map PvString.length).sum)).sum := by
  intro isos
  induction isos with
  | nil =>
    intro j isoY
    exact ⟨⟨rfl, rfl, rfl⟩, rfl⟩
  | cons iso rest ih =>
    intro j isoY
    have hstrT := stringsLayout_comps_type i j pX isoY iso.pvstrings 0 0
    have hstrL := stringsLayout_length i j pX isoY iso.pvstrings 0 0
    have hPv : (stringsLayout i j pX isoY 0 0 iso.pvstrings).1.countP
        (fun c => decide (c.type = CompType.pvString))
        = (iso.pvstrings.map PvString.length).sum := by
      rw [← hstrL]
      refine List.countP_eq_length.2 ?_
      intro c hc
      simpa using hstrT c hc
    have hIso : (stringsLayout i j pX isoY 0 0 iso.pvstrings).1.countP
        (fun c => decide (c.type = CompType.isolator)) = 0 := by
      refine List.countP_eq_zero.2 ?_
      intro c hc
      simp [hstrT c hc]
    have hInv : (stringsLayout i j pX isoY 0 0 iso.pvstrings).1.countP
        (fun c => decide (c.type = CompType.inverter)) = 0 := by
      refine List.countP_eq_zero.2 ?_
      intro c hc
      simp [hstrT c hc]
    have ihj := ih (j + 1) (isoY + (stringsLayout i j pX isoY 0 0 iso.pvstrings).2.2 + 80)
    rw [isolatorsLayout]
    refine ⟨⟨?_, ?_, ?_⟩, ?_⟩
    · simp [List.countP_cons, List.countP_append, isolatorComp, hIso, ihj.1.1]
    · simp [List.countP_cons, List.countP_append, isolatorComp, hInv, ihj.1.2.1]
    · simp [List.countP_cons, List.countP_append, isolatorComp, hPv, ihj.1.2.2]
    · simp only [List.length_cons, List.length_append, hstrL, ihj.2, List.map_cons,
        List.sum_cons]
      omega

/-- Component counts of the inverter loop, by type, and its total length. -/
theorem invertersLayout_counts (m : ℚ) :
    ∀ (invs : List Inverter) (istart : Nat) (curY : ℚ),
    ((invertersLayout m istart curY invs).1.countP
        (fun c => decide (c.type = CompType.inverter)) = invs.length
    ∧ (invertersLayout m istart curY invs).1.countP
        (fun c => decide (c.type = CompType.isolator))
        = (invs.map (fun inv => inv.isolators.length)).sum
    ∧ (invertersLayout m istart curY invs).1.countP
        (fun c => decide (c.type = CompType.pvString))
        = (invs.map (fun inv =>
            (inv.isolators.map (fun iso => (iso.pvstrings.map PvString.length).sum)).sum)).sum)
    ∧ (invertersLayout m istart curY invs).1.length
        = invs.length + (invs.map (fun inv => inv.isolators.length)).sum
          + (invs.map (fun inv =>
              (inv.isolators.map (fun iso => (iso.pvstrings.map PvString.length).sum)).sum)).sum := by
  intro invs
  induction invs with
  | nil =>
    intro istart curY
    exact ⟨⟨rfl, rfl, rfl⟩, rfl⟩
  | cons inv rest ih =>
    intro istart curY
    have hiso := isolatorsLayout_counts istart (m + 180) (m + 180 + 150) inv.isolators 0
      (curY + blockHeightA inv / 2 - blockHeightA inv / 2)
    have ihr := ih (istart + 1) (curY + blockHeightA inv + 200)
    rw [invertersLayout, blockA]
    refine ⟨⟨?_, ?_, ?_⟩, ?_⟩
    · simp only [List.countP_append, List.countP_cons, hiso.1.2.1, ihr.1.1]
      simp only [List.length_cons]
      norm_num
      omega
    · simp only [List.countP_append, List.countP_cons, hiso.1.1, ihr.1.2.1]
      simp only [List.map_cons, List.sum_cons]
      norm_num
      decide
    · simp only [List.countP_append, List.countP_cons, hiso.1.2.2, ihr.1.2.2]
      simp only [List.map_cons, List.sum_cons]
      norm_num
      decide
    · simp only [List.length_append, List.length_cons, hiso.2, ihr.2, List.map_cons,
        List.sum_cons]
      omega

/-! ## Claim C10 -/

/-- Claim C10: the number of `pvString` components produced by
`generateLayout` equals `getSystemStats(input).totalPanels`, the number of
`inverter` components equals `getSystemStats(input).inverters`, and the
number of `isolator` components equals `getSystemStats(input).isolators`. -/
theorem c10_layout_stats_agreement (opts : Options) (sys : SystemDescription) :
    ((generateLayout opts sys).components.filter
        (fun c => decide (c.type = CompType.pvString))).length
      = (getSystemStats sys).totalPanels
    ∧ ((generateLayout opts sys).components.filter
        (fun c => decide (c.type = CompType.inverter))).length
      = (getSystemStats sys).inverters
    ∧ ((generateLayout opts sys).components.filter
        (fun c => decide (c.type = CompType.isolator))).length
      = (getSystemStats sys).isolators := by
  have h := invertersLayout_counts opts.margin sys.inverters 0 (opts.margin + 120)
  refine ⟨?_, ?_, ?_⟩
  · rw [← List.countP_eq_length_filter]
    exact h.1.2.2
  · rw [← List.countP_eq_length_filter]
    exact h.1.1
  · rw [← List.countP_eq_length_filter]
    exact h.1.2.1

/-! ## Claim C8 -/

/-- Claim C8: `generateLayout` is total on all well-shaped inputs (it is a
Lean function); empty sequences at any level contribute no components of that
subtree — the component count is exactly inverters + isolators + panels, so
an empty `inverters` list yields no components at all — and the produced
canvas never falls below the configured minimum size. -/
theorem c8_degenerate_totality (opts : Options) (sys : SystemDescription) :
    opts.width ≤ (generateLayout opts sys).width
    ∧ opts.height ≤ (generateLayout opts sys).height
    ∧ (generateLayout opts ⟨[]⟩).components = []
    ∧ (generateLayout opts ⟨[]⟩).connections = []
    ∧ (generateLayout opts sys).components.length
        = (getSystemStats sys).inverters + (getSystemStats sys).isolators
          + (getSystemStats sys).totalPanels := by
  refine ⟨le_max_left _ _, le_max_left _ _, rfl, rfl, ?_⟩
  exact (invertersLayout_counts opts.margin sys.inverters 0 (opts.margin + 120)).2

/-! ## Claim C2 -/

/-- The spec-side maximum: largest value of `g` over the components, with the
empty maximum taken as 0 (as in the source's accumulator initialization). -/
def maxOver (g : Component → ℚ) (comps : List Component) : ℚ :=
  (comps.map g).foldl max 0

/-- Claim C2: for both layout passes, the produced width equals
`max(configured minimum, max over components of the right edge + margin +
padding constant)` (padding 80 for width, 120 for height), hence the canvas
never clips any component's footprint plus margin and never falls below the
configured minimum. -/
theorem c2_canvas_bounds (opts : Options) (sys : SystemDescription) :
    ((generateLayout opts sys).width
        = max opts.width
            (maxOver (fun c => c.x + symbolWidth c.type) (generateLayout opts sys).components
              + opts.margin + 80)
    ∧ (generateLayout opts sys).height
        = max opts.height
            (maxOver (fun c => c.y + symbolHeight c.type) (generateLayout opts sys).components
              + opts.margin + 120)
    ∧ opts.width ≤ (generateLayout opts sys).width
    ∧ opts.height ≤ (generateLayout opts sys).height
    ∧ ∀ c ∈ (generateLayout opts sys).components,
        c.x + symbolWidth c.type + opts.margin ≤ (generateLayout opts sys).width
        ∧ c.y + symbolHeight c.type + opts.margin ≤ (generateLayout opts sys).height)
    ∧ ((convertToSVGLayout opts sys).1.width
        = max opts.width
            (maxOver (fun c => c.x + effWidth c) (convertToSVGLayout opts sys).1.components
              + opts.margin + 80)
    ∧ (convertToSVGLayout opts sys).1.height
        = max opts.height
            (maxOver (fun c => c.y + effHeight c) (convertToSVGLayout opts sys).1.components
              + opts.margin + 120)
    ∧ opts.width ≤ (convertToSVGLayout opts sys).1.width
    ∧ opts.height ≤ (convertToSVGLayout opts sys).1.height
    ∧ ∀ c ∈ (convertToSVGLayout opts sys).1.components,
        c.x + effWidth c + opts.margin ≤ (convertToSVGLayout opts sys).1.width
        ∧ c.y + effHeight c + opts.margin ≤ (convertToSVGLayout opts sys).1.height) := by
  have eA1 : (generateLayout opts sys).width
      = max opts.width (maxRightA (generateLayout opts sys).components + opts.margin + 80) :=
    rfl
  have eA2 : (generateLayout opts sys).height
      = max opts.height (maxBottomA (generateLayout opts sys).components + opts.margin + 120) :=
    rfl
  have eB1 : (convertToSVGLayout opts sys).1.width
      = max opts.width
          (maxRightB (convertToSVGLayout opts sys).1.components + opts.margin + 80) := rfl
  have eB2 : (convertToSVGLayout opts sys).1.height
      = max opts.height
          (maxBottomB (convertToSVGLayout opts sys).1.components + opts.margin + 120) := rfl
  have fA1 : ∀ l, maxRightA l = maxOver (fun c => c.x + symbolWidth c.type) l :=
    fun l => foldl_max_eq_map (fun c => c.x + symbolWidth c.type) l 0
  have fA2 : ∀ l, maxBottomA l = maxOver (fun c => c.y + symbolHeight c.type) l :=
    fun l => foldl_max_eq_map (fun c => c.y + symbolHeight c.type) l 0
  have fB1 : ∀ l, maxRightB l = maxOver (fun c => c.x + effWidth c) l :=
    fun l => foldl_max_eq_map (fun c => c.x + effWidth c) l 0
  have fB2 : ∀ l, maxBottomB l = maxOver (fun c => c.y + effHeight c) l :=
    fun l => foldl_max_eq_map (fun c => c.y + effHeight c) l 0
  refine ⟨⟨?_, ?_, ?_, ?_, ?_⟩, ⟨?_, ?_, ?_, ?_, ?_⟩⟩
  · rw [eA1, fA1]
  · rw [eA2, fA2]
  · rw [eA1]; exact le_max_left _ _
  · rw [eA2]; exact le_max_left _ _
  · intro c hc
    have h1 : c.x + symbolWidth c.type
        ≤ maxRightA (generateLayout opts sys).components :=
      mem_le_foldl_max (fun d => d.x + symbolWidth d.type) _ 0 c hc
    have h2 : c.y + symbolHeight c.type
        ≤ maxBottomA (generateLayout opts sys).components :=
      mem_le_foldl_max (fun d => d.y + symbolHeight d.type) _ 0 c hc
    constructor
    · rw [eA1]
      have := le_max_right opts.width
        (maxRightA (generateLayout opts sys).components + opts.margin + 80)
      linarith
    · rw [eA2]
      have := le_max_right opts.height
        (maxBottomA (generateLayout opts sys).components + opts.margin + 120)
      linarith
  · rw [eB1, fB1]
  · rw [eB2, fB2]
  · rw [eB1]; exact le_max_left _ _
  · rw [eB2]; exact le_max_left _ _
  · intro c hc
    have h1 : c.x + effWidth c ≤ maxRightB (convertToSVGLayout opts sys).1.components :=
      mem_le_foldl_max (fun d => d.x + effWidth d) _ 0 c hc
    have h2 : c.y + effHeight c ≤ maxBottomB (convertToSVGLayout opts sys).1.components :=
      mem_le_foldl_max (fun d => d.y + effHeight d) _ 0 c hc
    constructor
    · rw [eB1]
      have := le_max_right opts.width
        (maxRightB (convertToSVGLayout opts sys).1.components + opts.margin + 80)
      linarith
    · rw [eB2]
      have := le_max_right opts.height
        (maxBottomB (convertToSVGLayout opts sys).1.components + opts.margin + 120)
      linarith

/-- The inverter component of the example layout, as a concrete record. -/
def exampleInverterComp : Component :=
  { id := "inverter_0", type := CompType.inverter, x := 50, y := 220,
    label := "Inverter 1", cwidth := none, cheight := none }

/-- Claim C2, witness: the containment bound applied to the concrete inverter
component of the example layout. -/
theorem c2_canvas_bounds_witness :
    exampleInverterComp.x + symbolWidth exampleInverterComp.type + defaultOptions.margin
      ≤ (generateLayout defaultOptions sysExample).width
    ∧ exampleInverterComp.y + symbolHeight exampleInverterComp.type + defaultOptions.margin
      ≤ (generateLayout defaultOptions sysExample).height := by
  have hmem : exampleInverterComp ∈ (generateLayout defaultOptions sysExample).components := by
    norm_num [generateLayout, invertersLayout, blockA, isolatorsLayout,
      stringsLayout, stringComps, panelComp, isolatorComp, blockHeightA,
      numStringsA, stringConns, defaultOptions, sysExample, exampleInverterComp,
      inverterLabel, isolatorLabelA, pvLabel, inverterId, isolatorId,
      pvId, symbolWidth, symbolHeight, max_def]
    decide
  exact (c2_canvas_bounds defaultOptions sysExample).1.2.2.2.2 exampleInverterComp hmem

/-! ## Claim C9 -/

/-- Claim C9: for an inverter component with `totalSlots ≥ 1` and any slot
index `0 ≤ slotIndex < totalSlots` and either polarity,
`getInverterConnectionY` returns
`y + 10 + step * (2*slotIndex + polarityBit)` with
`step = (height - 2*10) / (totalSlots*2 - 1)` — the even spread of
`totalSlots × 2` connection points — every returned Y lies within the body
bounds `[y + 4, y + height - 4]`, and distinct (slot, polarity) pairs get
distinct Y coordinates; the function is a pure function of its arguments. -/
theorem c9_inverter_connection_y (c : Component) (si T : Nat) (pol : String)
    (hc : c.type = CompType.inverter) (hT : 1 ≤ T) (hs : si < T) :
    getInverterConnectionY c ⟨si, T⟩ pol
      = c.y + 10 + (30 / (2 * (T : ℚ) - 1))
          * ((si * 2 + (if pol = "positive" then 0 else 1) : Nat) : ℚ)
    ∧ c.y + 4 ≤ getInverterConnectionY c ⟨si, T⟩ pol
    ∧ getInverterConnectionY c ⟨si, T⟩ pol ≤ c.y + symbolHeight c.type - 4
    ∧ (∀ (si' : Nat) (pol' : String), si' < T →
        getInverterConnectionY c ⟨si', T⟩ pol'
          = getInverterConnectionY c ⟨si, T⟩ pol →
        (si' = si ∧ ((pol' = "positive") ↔ (pol = "positive")))) := by
  have hTQ : (1:ℚ) ≤ (T:ℚ) := by exact_mod_cast hT
  have hD : (0:ℚ) < 2 * (T:ℚ) - 1 := by linarith
  have hDne : (2 * (T:ℚ) - 1) ≠ 0 := ne_of_gt hD
  have hstep : (0:ℚ) ≤ 30 / (2 * (T:ℚ) - 1) := by positivity
  have key : ∀ (sj : Nat) (q : String), sj < T →
      getInverterConnectionY c ⟨sj, T⟩ q
        = c.y + 10 + (30 / (2 * (T : ℚ) - 1))
            * ((sj * 2 + (if q = "positive" then 0 else 1) : Nat) : ℚ) := by
    intro sj q hsj
    have hmax : max 1 T = T := max_eq_right hT
    have hciQ : ((sj * 2 + (if q = "positive" then 0 else 1) : Nat) : ℚ)
        ≤ 2 * (T:ℚ) - 1 := by
      have hci : (sj * 2 + (if q = "positive" then 0 else 1)) ≤ 2 * T - 1 := by
        by_cases hq : q = "positive" <;> simp [hq] <;> omega
      have h1 : (1:Nat) ≤ 2 * T := by omega
      calc ((sj * 2 + (if q = "positive" then 0 else 1) : Nat) : ℚ)
          ≤ ((2 * T - 1 : Nat) : ℚ) := by exact_mod_cast hci
        _ = 2 * (T:ℚ) - 1 := by
            rw [Nat.cast_sub h1]
            push_cast
            ring
    have hprod_le : (30 / (2 * (T:ℚ) - 1))
        * ((sj * 2 + (if q = "positive" then 0 else 1) : Nat) : ℚ) ≤ 30 := by
      calc (30 / (2 * (T:ℚ) - 1))
            * ((sj * 2 + (if q = "positive" then 0 else 1) : Nat) : ℚ)
          ≤ (30 / (2 * (T:ℚ) - 1)) * (2 * (T:ℚ) - 1) :=
            mul_le_mul_of_nonneg_left hciQ hstep
        _ = 30 := div_mul_cancel₀ 30 hDne
    have hprod_ge : (0:ℚ) ≤ (30 / (2 * (T:ℚ) - 1))
        * ((sj * 2 + (if q = "positive" then 0 else 1) : Nat) : ℚ) := by positivity
    rw [getInverterConnectionY]
    simp only [hc, hmax]
    rw [if_neg (by omega : ¬ T * 2 ≤ 1)]
    rw [if_pos (by omega : 1 < T * 2)]
    have havail : max (0:ℚ) (symbolHeight CompType.inverter - 10 * 2) = 30 := by
      rw [symbolHeight]
      norm_num
    rw [havail]
    have hcast : ((T * 2 : Nat) : ℚ) - 1 = 2 * (T:ℚ) - 1 := by
      push_cast
      ring
    rw [hcast]
    rw [clamp]
    rw [min_eq_right (by rw [symbolHeight]; linarith)]
    rw [max_eq_right (by linarith)]
  have hb := key si pol hs
  refine ⟨hb, ?_, ?_, ?_⟩
  · rw [hb]
    have : (0:ℚ) ≤ (30 / (2 * (T:ℚ) - 1))
        * ((si * 2 + (if pol = "positive" then 0 else 1) : Nat) : ℚ) := by positivity
    linarith
  · rw [hb, hc, symbolHeight]
    have hciQ : ((si * 2 + (if pol = "positive" then 0 else 1) : Nat) : ℚ)
        ≤ 2 * (T:ℚ) - 1 := by
      have hci : (si * 2 + (if pol = "positive" then 0 else 1)) ≤ 2 * T - 1 := by
        by_cases hq : pol = "positive" <;> simp [hq] <;> omega
      have h1 : (1:Nat) ≤ 2 * T := by omega
      calc ((si * 2 + (if pol = "positive" then 0 else 1) : Nat) : ℚ)
          ≤ ((2 * T - 1 : Nat) : ℚ) := by exact_mod_cast hci
        _ = 2 * (T:ℚ) - 1 := by
            rw [Nat.cast_sub h1]
            push_cast
            ring
    have : (30 / (2 * (T:ℚ) - 1))
        * ((si * 2 + (if pol = "positive" then 0 else 1) : Nat) : ℚ) ≤ 30 := by
      calc (30 / (2 * (T:ℚ) - 1))
            * ((si * 2 + (if pol = "positive" then 0 else 1) : Nat) : ℚ)
          ≤ (30 / (2 * (T:ℚ) - 1)) * (2 * (T:ℚ) - 1) :=
            mul_le_mul_of_nonneg_left hciQ hstep
        _ = 30 := div_mul_cancel₀ 30 hDne
    linarith
  · intro si' pol' hs' heq
    rw [key si' pol' hs', hb] at heq
    have hstep_pos : (0:ℚ) < 30 / (2 * (T:ℚ) - 1) := by positivity
    have hmul : (30 / (2 * (T:ℚ) - 1))
        * ((si' * 2 + (if pol' = "positive" then 0 else 1) : Nat) : ℚ)
        = (30 / (2 * (T:ℚ) - 1))
        * ((si * 2 + (if pol = "positive" then 0 else 1) : Nat) : ℚ) := by
      linarith
    have hcast : ((si' * 2 + (if pol' = "positive" then 0 else 1) : Nat) : ℚ)
        = ((si * 2 + (if pol = "positive" then 0 else 1) : Nat) : ℚ) :=
      mul_left_cancel₀ (ne_of_gt hstep_pos) hmul
    have hnat : si' * 2 + (if pol' = "positive" then 0 else 1)
        = si * 2 + (if pol = "positive" then 0 else 1) := by exact_mod_cast hcast
    by_cases h1 : pol' = "positive" <;> by_cases h2 : pol = "positive" <;>
      simp [h1, h2] at hnat ⊢ <;> omega

/-- Claim C9, witness: the theorem applied at a concrete inverter component
(`y = 220`), slot 1 of 2, negative polarity: the Y coordinate is
`220 + 10 + (30/3)*3 = 260`, inside `[224, 266]`. -/
theorem c9_inverter_connection_y_witness :
    getInverterConnectionY exampleInverterComp ⟨1, 2⟩ "negative"
      = exampleInverterComp.y + 10 + (30 / (2 * (2 : ℚ) - 1))
          * ((1 * 2 + (if "negative" = "positive" then 0 else 1) : Nat) : ℚ)
    ∧ exampleInverterComp.y + 4
      ≤ getInverterConnectionY exampleInverterComp ⟨1, 2⟩ "negative"
    ∧ getInverterConnectionY exampleInverterComp ⟨1, 2⟩ "negative"
      ≤ exampleInverterComp.y + symbolHeight exampleInverterComp.type - 4 := by
  have h := c9_inverter_connection_y exampleInverterComp 1 2 "negative" rfl
    (by omega) (by omega)
  exact ⟨h.1, h.2.1, h.2.2.1⟩

/-! ## Claim C4: referential-integrity lemmas, canvas variant -/

/-- The identifiers of one string's panel components. -/
theorem stringComps_ids (i j s : Nat) (pX sy : ℚ) (pv : PvString) :
    (stringComps i j s pX sy pv).map Component.id
      = (List.range pv.length).map (pvId i j s) := by
  simp [stringComps, panelComp]

/-- Endpoints of one string's connections: the owning isolator or a panel
index strictly below the string length. -/
theorem stringConns_endpoints (i j s len : Nat) :
    ∀ k ∈ stringConns i j s len,
      (k.fromId = isolatorId i j ∨ ∃ p, p < len ∧ k.fromId = pvId i j s p)
      ∧ (k.toId = isolatorId i j ∨ ∃ p, p < len ∧ k.toId = pvId i j s p) := by
  intro k hk
  rw [stringConns] at hk
  by_cases h0 : len = 0
  · rw [if_pos h0] at hk
    cases hk
  · rw [if_neg h0] at hk
    have hlen : 0 < len := Nat.pos_of_ne_zero h0
    rcases List.mem_append.1 hk with h | h
    · rcases List.mem_cons.1 h with h | h
      · subst h
        exact ⟨Or.inl rfl, Or.inr ⟨0, hlen, rfl⟩⟩
      · rcases List.mem_map.1 h with ⟨p, hp, rfl⟩
        have hp' : p < len - 1 := List.mem_range.1 hp
        exact ⟨Or.inr ⟨p, by omega, rfl⟩, Or.inr ⟨p + 1, by omega, rfl⟩⟩
    · rcases List.mem_cons.1 h with h | h
      · subst h
        exact ⟨Or.inr ⟨len - 1, by omega, rfl⟩, Or.inl rfl⟩
      · cases h

/-- Panel identifiers below the string length occur among the string's
component identifiers. -/
theorem pvId_mem_stringComps (i j s : Nat) (pX sy : ℚ) (pv : PvString)
    (p : Nat) (hp : p < pv.length) :
    pvId i j s p ∈ (stringComps i j s pX sy pv).map Component.id := by
  rw [stringComps_ids]
  exact List.mem_map.2 ⟨p, List.mem_range.2 hp, rfl⟩

/-- Referential integrity of the string loop: every connection endpoint is
the owning isolator's identifier or one of the loop's own component
identifiers. -/
theorem stringsLayout_conns_refint (i j : Nat) (pX isoY : ℚ) :
    ∀ (strs : List PvString) (s : Nat) (yoff : ℚ),
    ∀ k ∈ (stringsLayout i j pX isoY s yoff strs).2.1,
      k.fromId ∈ isolatorId i j
          :: (stringsLayout i j pX isoY s yoff strs).1.map Component.id
      ∧ k.toId ∈ isolatorId i j
          :: (stringsLayout i j pX isoY s yoff strs).1.map Component.id := by
  intro strs
  induction strs with
  | nil =>
    intro s yoff k hk
    cases hk
  | cons pv rest ih =>
    intro s yoff k hk
    rw [stringsLayout] at hk ⊢
    simp only [List.map_append] at *
    have hone : ∀ x, (x = isolatorId i j ∨ ∃ p, p < pv.length ∧ x = pvId i j s p) →
        x ∈ isolatorId i j
          :: ((stringComps i j s pX (isoY + yoff) pv).map Component.id
              ++ (stringsLayout i j pX isoY (s + 1) (yoff + 70) rest).1.map Component.id) := by
      intro x hx
      rcases hx with rfl | ⟨p, hp, rfl⟩
      · exact List.mem_cons_self _ _
      · exact List.mem_cons_of_mem _
          (List.mem_append_left _ (pvId_mem_stringComps i j s pX (isoY + yoff) pv p hp))
    rcases List.mem_append.1 hk with h | h
    · have he := stringConns_endpoints i j s pv.length k h
      exact ⟨hone k.fromId he.1, hone k.toId he.2⟩
    · have he := ih (s + 1) (yoff + 70) k h
      have hlift : ∀ x, x ∈ isolatorId i j
            :: (stringsLayout i j pX isoY (s + 1) (yoff + 70) rest).1.map Component.id →
          x ∈ isolatorId i j
            :: ((stringComps i j s pX (isoY + yoff) pv).map Component.id
                ++ (stringsLayout i j pX isoY (s + 1) (yoff + 70) rest).1.map Component.id) := by
        intro x hx
        rcases List.mem_cons.1 hx with rfl | hx
        · exact List.mem_cons_self _ _
        · exact List.mem_cons_of_mem _ (List.mem_append_right _ hx)
      exact ⟨hlift k.fromId he.1, hlift k.toId he.2⟩

/-- Referential integrity of the isolator loop: every connection endpoint is
the owning inverter's identifier or one of the loop's own component
identifiers. -/
theorem isolatorsLayout_conns_refint (i : Nat) (iX pX : ℚ) :
    ∀ (isos : List Isolator) (j : Nat) (isoY : ℚ),
    ∀ k ∈ (isolatorsLayout i iX pX j isoY isos).2,
      k.fromId ∈ inverterId i
          :: (isolatorsLayout i iX pX j isoY isos).1.map Component.id
      ∧ k.toId ∈ inverterId i
          :: (isolatorsLayout i iX pX j isoY isos).1.map Component.id := by
  intro isos
  induction isos with
  | nil =>
    intro j isoY k hk
    cases hk
  | cons iso rest ih =>
    intro j isoY k hk
    rw [isolatorsLayout] at hk ⊢
    simp only [List.map_cons, List.map_append, isolatorComp] at *
    have hlift : ∀ x, (x ∈ isolatorId i j
          :: (stringsLayout i j pX isoY 0 0 iso.pvstrings).1.map Component.id) →
        x ∈ inverterId i :: isolatorId i j
          :: ((stringsLayout i j pX isoY 0 0 iso.pvstrings).1.map Component.id
              ++ (isolatorsLayout i iX pX (j + 1)
                  (isoY + (stringsLayout i j pX isoY 0 0 iso.pvstrings).2.2 + 80) rest).1.map
                  Component.id) := by
      intro x hx
      rcases List.mem_cons.1 hx with rfl | hx
      · exact List.mem_cons_of_mem _ (List.mem_cons_self _ _)
      · exact List.mem_cons_of_mem _ (List.mem_cons_of_mem _ (List.mem_append_left _ hx))
    have hlift2 : ∀ x, (x ∈ inverterId i
          :: (isolatorsLayout i iX pX (j + 1)
              (isoY + (stringsLayout i j pX isoY 0 0 iso.pvstrings).2.2 + 80) rest).1.map
              Component.id) →
        x ∈ inverterId i :: isolatorId i j
          :: ((stringsLayout i j pX isoY 0 0 iso.pvstrings).1.map Component.id
              ++ (isolatorsLayout i iX pX (j + 1)
                  (isoY + (stringsLayout i j pX isoY 0 0 iso.pvstrings).2.2 + 80) rest).1.map
                  Component.id) := by
      intro x hx
      rcases List.mem_cons.1 hx with rfl | hx
      · exact List.mem_cons_self _ _
      · exact List.mem_cons_of_mem _ (List.mem_cons_of_mem _ (List.mem_append_right _ hx))
    rcases List.mem_append.1 hk with h | h
    · rcases List.mem_cons.1 h with rfl | h
      · refine ⟨List.mem_cons_self _ _, ?_⟩
        exact List.mem_cons_of_mem _ (List.mem_cons_self _ _)
      · rcases List.mem_cons.1 h with rfl | h
        · refine ⟨List.mem_cons_of_mem _ (List.mem_cons_self _ _), List.mem_cons_self _ _⟩
        · have he := stringsLayout_conns_refint i j pX isoY iso.pvstrings 0 0 k h
          exact ⟨hlift k.fromId he.1, hlift k.toId he.2⟩
    · have he := ih (j + 1) (isoY + (stringsLayout i j pX isoY 0 0 iso.pvstrings).2.2 + 80) k h
      exact ⟨hlift2 k.fromId he.1, hlift2 k.toId he.2⟩

/-- Referential integrity of one canvas-variant inverter block: every
connection endpoint is one of the block's own component identifiers. -/
theorem blockA_conns_refint (m : ℚ) (i : Nat) (curY : ℚ) (inv : Inverter) :
    ∀ k ∈ (blockA m i curY inv).2,
      k.fromId ∈ (blockA m i curY inv).1.map Component.id
      ∧ k.toId ∈ (blockA m i curY inv).1.map Component.id := by
  intro k hk
  rw [blockA] at hk ⊢
  simp only [List.map_cons] at *
  exact isolatorsLayout_conns_refint i (m + 180) (m + 180 + 150) inv.isolators 0
    (curY + blockHeightA inv / 2 - blockHeightA inv / 2) k hk

/-- Referential integrity of the canvas-variant inverter loop. -/
theorem invertersLayout_conns_refint (m : ℚ) :
    ∀ (invs : List Inverter) (istart : Nat) (curY : ℚ),
    ∀ k ∈ (invertersLayout m istart curY invs).2,
      k.fromId ∈ (invertersLayout m istart curY invs).1.map Component.id
      ∧ k.toId ∈ (invertersLayout m istart curY invs).1.map Component.id := by
  intro invs
  induction invs with
  | nil =>
    intro istart curY k hk
    cases hk
  | cons inv rest ih =>
    intro istart curY k hk
    rw [invertersLayout] at hk ⊢
    simp only [List.map_append] at *
    rcases List.mem_append.1 hk with h | h
    · have he := blockA_conns_refint m istart curY inv k h
      exact ⟨List.mem_append_left _ he.1, List.mem_append_left _ he.2⟩
    · have he := ih (istart + 1) (curY + blockHeightA inv + 200) k h
      exact ⟨List.mem_append_right _ he.1, List.mem_append_right _ he.2⟩

/-! ## Claim C4: referential-integrity lemmas, SVG variant -/

/-- Referential integrity of the SVG variant's PV loop: every `pv_connection`
runs from one of the loop's own grid components back to the owning isolator. -/
theorem pvConnList_refint (i j : Nat) (sX isoY : ℚ) :
    ∀ (strs : List PvString) (k0 : Nat),
    ∀ k ∈ pvConnList i j k0 strs,
      k.fromId ∈ (pvGridList i j sX isoY k0 strs).map Component.id
      ∧ k.toId = isolatorId i j := by
  intro strs
  induction strs with
  | nil =>
    intro k0 k hk
    cases hk
  | cons pv rest ih =>
    intro k0 k hk
    rw [pvConnList] at hk
    rw [pvGridList]
    rcases List.mem_cons.1 hk with rfl | hk
    · exact ⟨List.mem_cons_self _ _, rfl⟩
    · have he := ih (k0 + 1) k hk
      exact ⟨List.mem_cons_of_mem _ he.1, he.2⟩

/-- Referential integrity of the SVG variant's isolator loop. -/
theorem isolatorsLayoutB_conns_refint (i : Nat) (iX pX : ℚ) :
    ∀ (isos : List Isolator) (j : Nat) (isoY : ℚ),
    ∀ k ∈ (isolatorsLayoutB i iX pX j isoY isos).2,
      k.fromId ∈ inverterId i
          :: (isolatorsLayoutB i iX pX j isoY isos).1.map Component.id
      ∧ k.toId ∈ inverterId i
          :: (isolatorsLayoutB i iX pX j isoY isos).1.map Component.id := by
  intro isos
  induction isos with
  | nil =>
    intro j isoY k hk
    cases hk
  | cons iso rest ih =>
    intro j isoY k hk
    rw [isolatorsLayoutB] at hk ⊢
    simp only [List.map_cons, List.map_append, isolatorCompB] at *
    have hliftGrid : ∀ x, x ∈ (pvGridList i j (pX - (4 - 1 : ℚ) * 110 / 2) isoY 0
          iso.pvstrings).map Component.id →
        x ∈ inverterId i :: isolatorId i j
          :: ((pvGridList i j (pX - (4 - 1 : ℚ) * 110 / 2) isoY 0 iso.pvstrings).map
                Component.id
              ++ (isolatorsLayoutB i iX pX (j + 1)
                  (isoY + ((rowsB iso : ℚ) * 90 + 120)) rest).1.map Component.id) := by
      intro x hx
      exact List.mem_cons_of_mem _ (List.mem_cons_of_mem _ (List.mem_append_left _ hx))
    have hlift2 : ∀ x, x ∈ inverterId i
          :: (isolatorsLayoutB i iX pX (j + 1)
              (isoY + ((rowsB iso : ℚ) * 90 + 120)) rest).1.map Component.id →
        x ∈ inverterId i :: isolatorId i j
          :: ((pvGridList i j (pX - (4 - 1 : ℚ) * 110 / 2) isoY 0 iso.pvstrings).map
                Component.id
              ++ (isolatorsLayoutB i iX pX (j + 1)
                  (isoY + ((rowsB iso : ℚ) * 90 + 120)) rest).1.map Component.id) := by
      intro x hx
      rcases List.mem_cons.1 hx with rfl | hx
      · exact List.mem_cons_self _ _
      · exact List.mem_cons_of_mem _ (List.mem_cons_of_mem _ (List.mem_append_right _ hx))
    rcases List.mem_append.1 hk with h | h
    · rcases List.mem_cons.1 h with rfl | h
      · refine ⟨List.mem_cons_of_mem _ (List.mem_cons_self _ _), List.mem_cons_self _ _⟩
      · have he := pvConnList_refint i j (pX - (4 - 1 : ℚ) * 110 / 2) isoY iso.pvstrings 0 k h
        refine ⟨hliftGrid k.fromId he.1, ?_⟩
        rw [he.2]
        exact List.mem_cons_of_mem _ (List.mem_cons_self _ _)
    · have he := ih (j + 1) (isoY + ((rowsB iso : ℚ) * 90 + 120)) k h
      exact ⟨hlift2 k.fromId he.1, hlift2 k.toId he.2⟩

/-- Referential integrity of one SVG-variant inverter block relative to the
busbar identifier and the block's own component identifiers. -/
theorem blockB_conns_refint (m : ℚ) (i : Nat) (curY : ℚ) (inv : Inverter) :
    ∀ k ∈ (blockB m i curY inv).2,
      k.fromId ∈ "busbar_main" :: (blockB m i curY inv).1.map Component.id
      ∧ k.toId ∈ "busbar_main" :: (blockB m i curY inv).1.map Component.id := by
  intro k hk
  rw [blockB] at hk ⊢
  simp only [List.map_cons] at *
  rcases List.mem_cons.1 hk with rfl | hk
  · exact ⟨List.mem_cons_self _ _,
      List.mem_cons_of_mem _ (List.mem_cons_self _ _)⟩
  · have he := isolatorsLayoutB_conns_refint i (m + 200 + 200) (m + 200 + 200 + 220)
      inv.isolators 0 (curY + blockHeightB inv / 2 - blockHeightB inv / 2) k hk
    have hlift : ∀ x, x ∈ inverterId i
          :: (isolatorsLayoutB i (m + 200 + 200) (m + 200 + 200 + 220) 0
              (curY + blockHeightB inv / 2 - blockHeightB inv / 2) inv.isolators).1.map
              Component.id →
        x ∈ "busbar_main" :: inverterId i
          :: (isolatorsLayoutB i (m + 200 + 200) (m + 200 + 200 + 220) 0
              (curY + blockHeightB inv / 2 - blockHeightB inv / 2) inv.isolators).1.map
              Component.id := by
      intro x hx
      exact List.mem_cons_of_mem _ hx
    exact ⟨hlift k.fromId he.1, hlift k.toId he.2⟩

/-- Membership in a cons-append list, from the cons of the left part. -/
theorem mem_cons_append_left (x h : String) (l1 l2 : List String)
    (hx : x ∈ h :: l1) : x ∈ h :: (l1 ++ l2) := by
  rcases List.mem_cons.1 hx with rfl | hx
  · exact List.mem_cons_self _ _
  · exact List.mem_cons_of_mem _ (List.mem_append_left _ hx)

/-- Membership in a cons-append list, from the cons of the right part. -/
theorem mem_cons_append_right (x h : String) (l1 l2 : List String)
    (hx : x ∈ h :: l2) : x ∈ h :: (l1 ++ l2) := by
  rcases List.mem_cons.1 hx with rfl | hx
  · exact List.mem_cons_self _ _
  · exact List.mem_cons_of_mem _ (List.mem_append_right _ hx)

/-- Referential integrity of the SVG-variant inverter loop. -/
theorem invertersLayoutB_conns_refint (m : ℚ) :
    ∀ (invs : List Inverter) (istart : Nat) (curY : ℚ) (top bot : Option ℚ),
    ∀ k ∈ (invertersLayoutB m istart curY top bot invs).2.1,
      k.fromId ∈ "busbar_main"
          :: (invertersLayoutB m istart curY top bot invs).1.map Component.id
      ∧ k.toId ∈ "busbar_main"
          :: (invertersLayoutB m istart curY top bot invs).1.map Component.id := by
  intro invs
  induction invs with
  | nil =>
    intro istart curY top bot k hk
    cases hk
  | cons inv rest ih =>
    intro istart curY top bot k hk
    simp only [invertersLayoutB, List.map_append] at hk ⊢
    rcases List.mem_append.1 hk with h | h
    · have he := blockB_conns_refint m istart curY inv k h
      exact ⟨mem_cons_append_left _ _ _ _ he.1, mem_cons_append_left _ _ _ _ he.2⟩
    · have he := ih (istart + 1) (curY + blockHeightB inv + 150) _ _ k h
      exact ⟨mem_cons_append_right _ _ _ _ he.1, mem_cons_append_right _ _ _ _ he.2⟩

/-- The busbar keeps the identifier `busbar_main` whether or not the layout
extent overwrote its geometry. -/
theorem busbarFinal_id (opts : Options) (t b : Option ℚ) :
    (busbarFinal opts t b).id = "busbar_main" := by
  cases t <;> cases b <;> rfl

/-- Claim C4: referential integrity — every connection endpoint produced by
either layout pass equals the id of some component in the same layout result. -/
theorem c4_referential_integrity (opts : Options) (sys : SystemDescription) :
    (∀ k ∈ (generateLayout opts sys).connections,
      (∃ c ∈ (generateLayout opts sys).components, c.id = k.fromId)
      ∧ (∃ c ∈ (generateLayout opts sys).components, c.id = k.toId))
    ∧ (∀ k ∈ (convertToSVGLayout opts sys).1.connections,
      (∃ c ∈ (convertToSVGLayout opts sys).1.components, c.id = k.fromId)
      ∧ (∃ c ∈ (convertToSVGLayout opts sys).1.components, c.id = k.toId)) := by
  constructor
  · intro k hk
    have he := invertersLayout_conns_refint opts.margin sys.inverters 0
      (opts.margin + 120) k hk
    constructor
    · rcases List.mem_map.1 he.1 with ⟨c, hc, hcid⟩
      exact ⟨c, hc, hcid⟩
    · rcases List.mem_map.1 he.2 with ⟨c, hc, hcid⟩
      exact ⟨c, hc, hcid⟩
  · intro k hk
    have he := invertersLayoutB_conns_refint opts.margin sys.inverters 0
      (opts.margin + 120) none none k hk
    have hmap : (convertToSVGLayout opts sys).1.components.map Component.id
        = "busbar_main"
          :: (invertersLayoutB opts.margin 0 (opts.margin + 120) none none
              sys.inverters).1.map Component.id := by
      show (busbarFinal opts _ _ :: _).map Component.id = _
      rw [List.map_cons, busbarFinal_id]
    constructor
    · have : k.fromId ∈ (convertToSVGLayout opts sys).1.components.map Component.id := by
        rw [hmap]
        exact he.1
      rcases List.mem_map.1 this with ⟨c, hc, hcid⟩
      exact ⟨c, hc, hcid⟩
    · have : k.toId ∈ (convertToSVGLayout opts sys).1.components.map Component.id := by
        rw [hmap]
        exact he.2
      rcases List.mem_map.1 this with ⟨c, hc, hcid⟩
      exact ⟨c, hc, hcid⟩

/-- The first connection of the example layout. -/
def exampleFirstConn : Connection :=
  { fromId := inverterId 0, toId := isolatorId 0 0, type := ConnType.daisy_positive }

/-- Claim C4, witness: both endpoints of the example layout's first
connection are ids of components of the same result. -/
theorem c4_referential_integrity_witness :
    (∃ c ∈ (generateLayout defaultOptions sysExample).components,
      c.id = exampleFirstConn.fromId)
    ∧ (∃ c ∈ (generateLayout defaultOptions sysExample).components,
      c.id = exampleFirstConn.toId) :=
  (c4_referential_integrity defaultOptions sysExample).1 exampleFirstConn (by decide)

/-! ## Claim C1: non-overlap

`symbolBoxesDisjoint` states that the closed axis-aligned boxes spanned by
the positions plus the symbol-table footprints have empty intersection
(strict separation along some axis): this is the canvas variant's footprint
notion.  `effBoxesDisjoint` is the same with the SVG variant's effective
footprints (per-component busbar geometry). -/

/-- Empty intersection of the closed symbol-footprint boxes of `c` and `d`. -/
def symbolBoxesDisjoint (c d : Component) : Prop :=
  c.x + symbolWidth c.type < d.x ∨ d.x + symbolWidth d.type < c.x
  ∨ c.y + symbolHeight c.type < d.y ∨ d.y + symbolHeight d.type < c.y

/-- Empty intersection of the closed effective-footprint boxes of `c` and `d`. -/
def effBoxesDisjoint (c d : Component) : Prop :=
  c.x + effWidth c < d.x ∨ d.x + effWidth d < c.x
  ∨ c.y + effHeight c < d.y ∨ d.y + effHeight d < c.y

/-- Vertical advance of the canvas-variant isolator loop over a list of
isolators: 70 per string plus 80 per isolator. -/
def advSumA (isos : List Isolator) : ℚ :=
  (isos.map (fun iso => 70 * (iso.pvstrings.length : ℚ) + 80)).sum

/-- The canvas-variant isolator advance is nonnegative. -/
theorem advSumA_nonneg (isos : List Isolator) : 0 ≤ advSumA isos := by
  refine List.sum_nonneg ?_
  intro q hq
  rcases List.mem_map.1 hq with ⟨iso, _, rfl⟩
  positivity

/-- The canvas-variant isolator advance never exceeds the block height. -/
theorem advSumA_le_blockHeightA (inv : Inverter) :
    advSumA inv.isolators ≤ blockHeightA inv := by
  refine le_trans ?_ (le_max_left _ _)
  refine List.sum_le_sum ?_
  intro iso _
  have h : (iso.pvstrings.length : ℚ) ≤ (numStringsA iso : ℚ) := by
    have : iso.pvstrings.length ≤ numStringsA iso := by
      rw [numStringsA]
      by_cases h0 : iso.pvstrings.length = 0 <;> simp [h0]
    exact_mod_cast this
  linarith

/-- The canvas-variant block height is at least 140. -/
theorem blockHeightA_ge (inv : Inverter) : 140 ≤ blockHeightA inv :=
  le_max_right _ _

/-- Geometry of every component produced by the canvas-variant string loop:
a PV panel in the panel column, within the loop's vertical band. -/
theorem stringsLayout_comps_bounds (i j : Nat) (pX isoY : ℚ) :
    ∀ (strs : List PvString) (s : Nat) (yoff : ℚ),
    ∀ c ∈ (stringsLayout i j pX isoY s yoff strs).1,
      c.type = CompType.pvString ∧ pX ≤ c.x
      ∧ isoY + yoff ≤ c.y ∧ c.y + 70 ≤ isoY + yoff + 70 * strs.length := by
  intro strs
  induction strs with
  | nil =>
    intro s yoff c hc
    cases hc
  | cons pv rest ih =>
    intro s yoff c hc
    rw [stringsLayout] at hc
    rcases List.mem_append.1 hc with h | h
    · rcases List.mem_map.1 h with ⟨p, _, rfl⟩
      refine ⟨rfl, ?_, ?_, ?_⟩
      · have : (0:ℚ) ≤ (p:ℚ) * 80 := by positivity
        simp only [panelComp]
        linarith
      · simp only [panelComp]
        linarith
      · simp only [panelComp, List.length_cons]
        have : (0:ℚ) ≤ (rest.length : ℚ) := by positivity
        push_cast
        linarith
    · have hb := ih (s + 1) (yoff + 70) c h
      refine ⟨hb.1, hb.2.1, by linarith [hb.2.2.1], ?_⟩
      have h2 := hb.2.2.2
      simp only [List.length_cons]
      push_cast at h2 ⊢
      linarith

/-- Panels of one string occupy disjoint boxes (successive X positions). -/
theorem stringComps_pairwise (i j s : Nat) (pX sy : ℚ) (pv : PvString) :
    (stringComps i j s pX sy pv).Pairwise symbolBoxesDisjoint := by
  rw [stringComps, List.pairwise_map]
  refine (List.pairwise_lt_range pv.length).imp ?_
  intro p q hpq
  left
  simp only [panelComp, symbolWidth]
  have : (p:ℚ) + 1 ≤ (q:ℚ) := by exact_mod_cast hpq
  linarith

/-- All components of the canvas-variant string loop occupy pairwise
disjoint boxes (per-string X spacing, inter-string Y spacing). -/
theorem stringsLayout_pairwise (i j : Nat) (pX isoY : ℚ) :
    ∀ (strs : List PvString) (s : Nat) (yoff : ℚ),
    (stringsLayout i j pX isoY s yoff strs).1.Pairwise symbolBoxesDisjoint := by
  intro strs
  induction strs with
  | nil =>
    intro s yoff
    exact List.Pairwise.nil
  | cons pv rest ih =>
    intro s yoff
    rw [stringsLayout]
    refine List.pairwise_append.2 ⟨stringComps_pairwise i j s pX (isoY + yoff) pv,
      ih (s + 1) (yoff + 70), ?_⟩
    intro a ha b hb
    rcases List.mem_map.1 ha with ⟨p, _, rfl⟩
    have hbb := stringsLayout_comps_bounds i j pX isoY rest (s + 1) (yoff + 70) b hb
    right; right; left
    simp only [panelComp, symbolHeight]
    linarith [hbb.2.2.1]

/-- Geometry of every component produced by the canvas-variant isolator
loop: an isolator in the isolator column or a panel in the panel column,
within the loop's vertical band (40 units of slack below). -/
theorem isolatorsLayout_comps_bounds (i : Nat) (iX pX : ℚ) :
    ∀ (isos : List Isolator) (j : Nat) (isoY : ℚ),
    ∀ c ∈ (isolatorsLayout i iX pX j isoY isos).1,
      ((c.type = CompType.isolator ∧ c.x = iX)
        ∨ (c.type = CompType.pvString ∧ pX ≤ c.x))
      ∧ isoY ≤ c.y ∧ c.y + symbolHeight c.type + 40 ≤ isoY + advSumA isos := by
  intro isos
  induction isos with
  | nil =>
    intro j isoY c hc
    cases hc
  | cons iso rest ih =>
    intro j isoY c hc
    have hadv : advSumA (iso :: rest)
        = (70 * (iso.pvstrings.length : ℚ) + 80) + advSumA rest := by
      rw [advSumA, List.map_cons, List.sum_cons]
      rfl
    have hrest := advSumA_nonneg rest
    have hlen : (0:ℚ) ≤ (iso.pvstrings.length : ℚ) := by positivity
    rw [isolatorsLayout] at hc
    rcases List.mem_cons.1 hc with rfl | hc
    · refine ⟨Or.inl ⟨rfl, rfl⟩, le_refl _, ?_⟩
      simp only [isolatorComp, symbolHeight]
      rw [hadv]
      linarith
    · rcases List.mem_append.1 hc with h | h
      · have hb := stringsLayout_comps_bounds i j pX isoY iso.pvstrings 0 0 c h
        refine ⟨Or.inr ⟨hb.1, hb.2.1⟩, by linarith [hb.2.2.1], ?_⟩
        have h2 := hb.2.2.2
        rw [hb.1]
        simp only [symbolHeight]
        rw [hadv]
        linarith
      · have hyoff := stringsLayout_yoff i j pX isoY iso.pvstrings 0 0
        have hb := ih (j + 1)
          (isoY + (stringsLayout i j pX isoY 0 0 iso.pvstrings).2.2 + 80) c h
        rw [hyoff] at hb
        refine ⟨hb.1, by linarith [hb.2.1], ?_⟩
        have h2 := hb.2.2
        rw [hadv]
        linarith

/-- All components of the canvas-variant isolator loop occupy pairwise
disjoint boxes, provided the panel column starts beyond the isolator
column's right edge. -/
theorem isolatorsLayout_pairwise (i : Nat) (iX pX : ℚ) (hx : iX + 40 < pX) :
    ∀ (isos : List Isolator) (j : Nat) (isoY : ℚ),
    (isolatorsLayout i iX pX j isoY isos).1.Pairwise symbolBoxesDisjoint := by
  intro isos
  induction isos with
  | nil =>
    intro j isoY
    exact List.Pairwise.nil
  | cons iso rest ih =>
    intro j isoY
    have hyoff := stringsLayout_yoff i j pX isoY iso.pvstrings 0 0
    have hlen : (0:ℚ) ≤ (iso.pvstrings.length : ℚ) := by positivity
    rw [isolatorsLayout]
    refine List.pairwise_cons.2 ⟨?_, ?_⟩
    · intro b hb
      rcases List.mem_append.1 hb with h | h
      · have hbb := stringsLayout_comps_bounds i j pX isoY iso.pvstrings 0 0 b h
        left
        simp only [isolatorComp, symbolWidth]
        linarith [hbb.2.1]
      · have hbb := isolatorsLayout_comps_bounds i iX pX rest (j + 1)
          (isoY + (stringsLayout i j pX isoY 0 0 iso.pvstrings).2.2 + 80) b h
        rw [hyoff] at hbb
        right; right; left
        simp only [isolatorComp, symbolHeight]
        linarith [hbb.2.1]
    · refine List.pairwise_append.2 ⟨stringsLayout_pairwise i j pX isoY iso.pvstrings 0 0,
        ih (j + 1) (isoY + (stringsLayout i j pX isoY 0 0 iso.pvstrings).2.2 + 80), ?_⟩
      intro a ha b hb
      have hab := stringsLayout_comps_bounds i j pX isoY iso.pvstrings 0 0 a ha
      have hbb := isolatorsLayout_comps_bounds i iX pX rest (j + 1)
        (isoY + (stringsLayout i j pX isoY 0 0 iso.pvstrings).2.2 + 80) b hb
      rw [hyoff] at hbb
      right; right; left
      rw [hab.1]
      simp only [symbolHeight]
      linarith [hab.2.2.2, hbb.2.1]

/-- Geometry of every component of one canvas-variant inverter block:
fixed X columns by type, within the block's vertical band. -/
theorem blockA_comps_bounds (m : ℚ) (i : Nat) (curY : ℚ) (inv : Inverter) :
    ∀ c ∈ (blockA m i curY inv).1,
      ((c.type = CompType.inverter ∧ c.x = m)
        ∨ (c.type = CompType.isolator ∧ c.x = m + 180)
        ∨ (c.type = CompType.pvString ∧ m + 330 ≤ c.x))
      ∧ curY ≤ c.y ∧ c.y + symbolHeight c.type + 40 ≤ curY + blockHeightA inv := by
  intro c hc
  have hbh := blockHeightA_ge inv
  have hadv := advSumA_le_blockHeightA inv
  rw [blockA] at hc
  rcases List.mem_cons.1 hc with rfl | hc
  · refine ⟨Or.inl ⟨rfl, rfl⟩, ?_, ?_⟩
    · simp only [symbolHeight]
      linarith
    · simp only [symbolHeight]
      linarith
  · have hb := isolatorsLayout_comps_bounds i (m + 180) (m + 180 + 150) inv.isolators 0
      (curY + blockHeightA inv / 2 - blockHeightA inv / 2) c hc
    have hy0 : curY + blockHeightA inv / 2 - blockHeightA inv / 2 = curY := by ring
    rw [hy0] at hb
    refine ⟨?_, hb.2.1, by linarith [hb.2.2]⟩
    rcases hb.1 with ⟨ht, hxx⟩ | ⟨ht, hxx⟩
    · exact Or.inr (Or.inl ⟨ht, hxx⟩)
    · exact Or.inr (Or.inr ⟨ht, by linarith⟩)

/-- All components of one canvas-variant inverter block occupy pairwise
disjoint boxes. -/
theorem blockA_pairwise (m : ℚ) (i : Nat) (curY : ℚ) (inv : Inverter) :
    (blockA m i curY inv).1.Pairwise symbolBoxesDisjoint := by
  rw [blockA]
  refine List.pairwise_cons.2 ⟨?_, ?_⟩
  · intro b hb
    have hbb := isolatorsLayout_comps_bounds i (m + 180) (m + 180 + 150) inv.isolators 0
      (curY + blockHeightA inv / 2 - blockHeightA inv / 2) b hb
    left
    simp only [symbolWidth]
    rcases hbb.1 with ⟨_, hxx⟩ | ⟨_, hxx⟩ <;> linarith
  · exact isolatorsLayout_pairwise i (m + 180) (m + 180 + 150) (by linarith)
      inv.isolators 0 (curY + blockHeightA inv / 2 - blockHeightA inv / 2)

/-- Every component of the canvas-variant inverter loop lies at or below the
running Y cursor. -/
theorem invertersLayout_comps_lb (m : ℚ) :
    ∀ (invs : List Inverter) (istart : Nat) (curY : ℚ),
    ∀ c ∈ (invertersLayout m istart curY invs).1, curY ≤ c.y := by
  intro invs
  induction invs with
  | nil =>
    intro istart curY c hc
    cases hc
  | cons inv rest ih =>
    intro istart curY c hc
    rw [invertersLayout] at hc
    rcases List.mem_append.1 hc with h | h
    · exact (blockA_comps_bounds m istart curY inv c h).2.1
    · have := ih (istart + 1) (curY + blockHeightA inv + 200) c h
      have hbh := blockHeightA_ge inv
      linarith

/-- Claim C1, canvas variant: all components produced by the inverter loop
occupy pairwise disjoint boxes. -/
theorem invertersLayout_pairwise_all (m : ℚ) :
    ∀ (invs : List Inverter) (istart : Nat) (curY : ℚ),
    (invertersLayout m istart curY invs).1.Pairwise symbolBoxesDisjoint := by
  intro invs
  induction invs with
  | nil =>
    intro istart curY
    exact List.Pairwise.nil
  | cons inv rest ih =>
    intro istart curY
    rw [invertersLayout]
    refine List.pairwise_append.2 ⟨blockA_pairwise m istart curY inv,
      ih (istart + 1) (curY + blockHeightA inv + 200), ?_⟩
    intro a ha b hb
    have hab := blockA_comps_bounds m istart curY inv a ha
    have hbb := invertersLayout_comps_lb m rest (istart + 1)
      (curY + blockHeightA inv + 200) b hb
    right; right; left
    linarith [hab.2.2]

/-- Vertical advance of the SVG-variant isolator loop over a list of
isolators: 90 per grid row plus 120 per isolator. -/
def advSumB (isos : List Isolator) : ℚ :=
  (isos.map (fun iso => (rowsB iso : ℚ) * 90 + 120)).sum

/-- The SVG-variant isolator advance is nonnegative. -/
theorem advSumB_nonneg (isos : List Isolator) : 0 ≤ advSumB isos := by
  refine List.sum_nonneg ?_
  intro q hq
  rcases List.mem_map.1 hq with ⟨iso, _, rfl⟩
  positivity

/-- The SVG-variant isolator advance never exceeds the block height. -/
theorem advSumB_le_blockHeightB (inv : Inverter) :
    advSumB inv.isolators ≤ blockHeightB inv :=
  le_max_left _ _

/-- The SVG-variant block height is at least 140. -/
theorem blockHeightB_ge (inv : Inverter) : 140 ≤ blockHeightB inv :=
  le_max_right _ _

/-- Geometry of every component produced by the SVG variant's PV loop: a PV
string on the 4-column grid with some running index in the loop's range. -/
theorem pvGridList_comps_char (i j : Nat) (sX isoY : ℚ) :
    ∀ (strs : List PvString) (k0 : Nat),
    ∀ c ∈ pvGridList i j sX isoY k0 strs,
      c.type = CompType.pvString
      ∧ ∃ k, k0 ≤ k ∧ k < k0 + strs.length
        ∧ c.x = sX + ((k % 4 : Nat) : ℚ) * 110
        ∧ c.y = isoY + 80 + ((k / 4 : Nat) : ℚ) * 90 := by
  intro strs
  induction strs with
  | nil =>
    intro k0 c hc
    cases hc
  | cons pv rest ih =>
    intro k0 c hc
    rw [pvGridList] at hc
    rcases List.mem_cons.1 hc with rfl | hc
    · exact ⟨rfl, k0, le_refl _, by simp, rfl, rfl⟩
    · rcases ih (k0 + 1) c hc with ⟨ht, k, hk1, hk2, hx, hy⟩
      exact ⟨ht, k, by omega, by simp only [List.length_cons]; omega, hx, hy⟩

/-- Grid components of one isolator occupy pairwise disjoint boxes (columns
110 apart, rows 90 apart). -/
theorem pvGridList_pairwise (i j : Nat) (sX isoY : ℚ) :
    ∀ (strs : List PvString) (k0 : Nat),
    (pvGridList i j sX isoY k0 strs).Pairwise symbolBoxesDisjoint := by
  intro strs
  induction strs with
  | nil =>
    intro k0
    exact List.Pairwise.nil
  | cons pv rest ih =>
    intro k0
    rw [pvGridList]
    refine List.pairwise_cons.2 ⟨?_, ih (k0 + 1)⟩
    intro b hb
    rcases pvGridList_comps_char i j sX isoY rest (k0 + 1) b hb with ⟨ht, k, hk1, _, hx, hy⟩
    by_cases hrow : k0 / 4 = k / 4
    · have hcol : k0 % 4 + 1 ≤ k % 4 := by omega
      have hcolQ : ((k0 % 4 : Nat) : ℚ) + 1 ≤ ((k % 4 : Nat) : ℚ) := by exact_mod_cast hcol
      left
      rw [hx]
      simp only [pvGridComp, symbolWidth]
      linarith
    · have hdv : k0 / 4 + 1 ≤ k / 4 := by
        have := Nat.div_le_div_right (c := 4) (Nat.le_of_lt (by omega : k0 < k))
        omega
      have hdvQ : ((k0 / 4 : Nat) : ℚ) + 1 ≤ ((k / 4 : Nat) : ℚ) := by exact_mod_cast hdv
      right; right; left
      rw [hy]
      simp only [pvGridComp, symbolHeight]
      linarith

/-- Geometry of every component produced by the SVG-variant isolator loop:
an isolator in the isolator column or a grid PV string starting 165 left of
the PV column centre, within the loop's vertical band. -/
theorem isolatorsLayoutB_comps_bounds (i : Nat) (iX pX : ℚ) :
    ∀ (isos : List Isolator) (j : Nat) (isoY : ℚ),
    ∀ c ∈ (isolatorsLayoutB i iX pX j isoY isos).1,
      ((c.type = CompType.isolator ∧ c.x = iX)
        ∨ (c.type = CompType.pvString ∧ pX - 165 ≤ c.x))
      ∧ isoY ≤ c.y ∧ c.y + symbolHeight c.type + 40 ≤ isoY + advSumB isos := by
  intro isos
  induction isos with
  | nil =>
    intro j isoY c hc
    cases hc
  | cons iso rest ih =>
    intro j isoY c hc
    have hadv : advSumB (iso :: rest)
        = ((rowsB iso : ℚ) * 90 + 120) + advSumB rest := by
      rw [advSumB, List.map_cons, List.sum_cons]
      rfl
    have hrest := advSumB_nonneg rest
    have hrows : (0:ℚ) ≤ (rowsB iso : ℚ) := by positivity
    rw [isolatorsLayoutB] at hc
    rcases List.mem_cons.1 hc with rfl | hc
    · refine ⟨Or.inl ⟨rfl, rfl⟩, le_refl _, ?_⟩
      simp only [isolatorCompB, symbolHeight]
      rw [hadv]
      linarith
    · rcases List.mem_append.1 hc with h | h
      · rcases pvGridList_comps_char i j (pX - (4 - 1 : ℚ) * 110 / 2) isoY iso.pvstrings 0
          c h with ⟨ht, k, _, hk2, hx, hy⟩
        have hkrow : k / 4 + 1 ≤ rowsB iso := by
          rw [rowsB]
          omega
        have hkrowQ : ((k / 4 : Nat) : ℚ) + 1 ≤ (rowsB iso : ℚ) := by exact_mod_cast hkrow
        have hmod : (0:ℚ) ≤ ((k % 4 : Nat) : ℚ) := by positivity
        have hdiv : (0:ℚ) ≤ ((k / 4 : Nat) : ℚ) := by positivity
        refine ⟨Or.inr ⟨ht, ?_⟩, ?_, ?_⟩
        · rw [hx]
          norm_num
        · rw [hy]
          linarith
        · rw [hy, ht]
          simp only [symbolHeight]
          rw [hadv]
          linarith
      · have hb := ih (j + 1) (isoY + ((rowsB iso : ℚ) * 90 + 120)) c h
        refine ⟨hb.1, by linarith [hb.2.1], ?_⟩
        have h2 := hb.2.2
        rw [hadv]
        linarith

/-- All components of the SVG-variant isolator loop occupy pairwise disjoint
boxes, provided the grid start column lies beyond the isolator column. -/
theorem isolatorsLayoutB_pairwise (i : Nat) (iX pX : ℚ) (hx : iX + 40 < pX - 165) :
    ∀ (isos : List Isolator) (j : Nat) (isoY : ℚ),
    (isolatorsLayoutB i iX pX j isoY isos).1.Pairwise symbolBoxesDisjoint := by
  intro isos
  induction isos with
  | nil =>
    intro j isoY
    exact List.Pairwise.nil
  | cons iso rest ih =>
    intro j isoY
    have hrows : (0:ℚ) ≤ (rowsB iso : ℚ) := by positivity
    rw [isolatorsLayoutB]
    refine List.pairwise_cons.2 ⟨?_, ?_⟩
    · intro b hb
      rcases List.mem_append.1 hb with h | h
      · rcases pvGridList_comps_char i j (pX - (4 - 1 : ℚ) * 110 / 2) isoY iso.pvstrings 0
          b h with ⟨_, k, _, _, hbx, _⟩
        have hmod : (0:ℚ) ≤ ((k % 4 : Nat) : ℚ) := by positivity
        left
        rw [hbx]
        simp only [isolatorCompB, symbolWidth]
        norm_num
        linarith
      · have hbb := isolatorsLayoutB_comps_bounds i iX pX rest (j + 1)
          (isoY + ((rowsB iso : ℚ) * 90 + 120)) b h
        right; right; left
        simp only [isolatorCompB, symbolHeight]
        linarith [hbb.2.1]
    · refine List.pairwise_append.2 ⟨pvGridList_pairwise i j
        (pX - (4 - 1 : ℚ) * 110 / 2) isoY iso.pvstrings 0,
        ih (j + 1) (isoY + ((rowsB iso : ℚ) * 90 + 120)), ?_⟩
      intro a ha b hb
      rcases pvGridList_comps_char i j (pX - (4 - 1 : ℚ) * 110 / 2) isoY iso.pvstrings 0
        a ha with ⟨hat, k, _, hk2, _, hay⟩
      have hbb := isolatorsLayoutB_comps_bounds i iX pX rest (j + 1)
        (isoY + ((rowsB iso : ℚ) * 90 + 120)) b hb
      have hkrow : k / 4 + 1 ≤ rowsB iso := by
        rw [rowsB]
        omega
      have hkrowQ : ((k / 4 : Nat) : ℚ) + 1 ≤ (rowsB iso : ℚ) := by exact_mod_cast hkrow
      right; right; left
      rw [hay, hat]
      simp only [symbolHeight]
      linarith [hbb.2.1]

/-- Geometry of every component of one SVG-variant inverter block: fixed X
columns by type, within the block's vertical band. -/
theorem blockB_comps_bounds (m : ℚ) (i : Nat) (curY : ℚ) (inv : Inverter) :
    ∀ c ∈ (blockB m i curY inv).1,
      ((c.type = CompType.inverter ∧ c.x = m + 200)
        ∨ (c.type = CompType.isolator ∧ c.x = m + 400)
        ∨ (c.type = CompType.pvString ∧ m + 455 ≤ c.x))
      ∧ curY ≤ c.y ∧ c.y + symbolHeight c.type + 40 ≤ curY + blockHeightB inv := by
  intro c hc
  have hbh := blockHeightB_ge inv
  have hadv := advSumB_le_blockHeightB inv
  rw [blockB] at hc
  rcases List.mem_cons.1 hc with rfl | hc
  · refine ⟨Or.inl ⟨rfl, rfl⟩, ?_, ?_⟩
    · simp only [symbolHeight]
      linarith
    · simp only [symbolHeight]
      linarith
  · have hb := isolatorsLayoutB_comps_bounds i (m + 200 + 200) (m + 200 + 200 + 220)
      inv.isolators 0 (curY + blockHeightB inv / 2 - blockHeightB inv / 2) c hc
    have hy0 : curY + blockHeightB inv / 2 - blockHeightB inv / 2 = curY := by ring
    rw [hy0] at hb
    refine ⟨?_, hb.2.1, by linarith [hb.2.2]⟩
    rcases hb.1 with ⟨ht, hxx⟩ | ⟨ht, hxx⟩
    · exact Or.inr (Or.inl ⟨ht, by linarith⟩)
    · exact Or.inr (Or.inr ⟨ht, by linarith⟩)

/-- All components of one SVG-variant inverter block occupy pairwise
disjoint boxes. -/
theorem blockB_pairwise (m : ℚ) (i : Nat) (curY : ℚ) (inv : Inverter) :
    (blockB m i curY inv).1.Pairwise symbolBoxesDisjoint := by
  rw [blockB]
  refine List.pairwise_cons.2 ⟨?_, ?_⟩
  · intro b hb
    have hbb := isolatorsLayoutB_comps_bounds i (m + 200 + 200) (m + 200 + 200 + 220)
      inv.isolators 0 (curY + blockHeightB inv / 2 - blockHeightB inv / 2) b hb
    left
    simp only [symbolWidth]
    rcases hbb.1 with ⟨_, hxx⟩ | ⟨_, hxx⟩ <;> linarith
  · exact isolatorsLayoutB_pairwise i (m + 200 + 200) (m + 200 + 200 + 220) (by linarith)
      inv.isolators 0 (curY + blockHeightB inv / 2 - blockHeightB inv / 2)

/-- Every component of the SVG-variant inverter loop lies at or below the
running Y cursor. -/
theorem invertersLayoutB_comps_lb (m : ℚ) :
    ∀ (invs : List Inverter) (istart : Nat) (curY : ℚ) (top bot : Option ℚ),
    ∀ c ∈ (invertersLayoutB m istart curY top bot invs).1, curY ≤ c.y := by
  intro invs
  induction invs with
  | nil =>
    intro istart curY top bot c hc
    cases hc
  | cons inv rest ih =>
    intro istart curY top bot c hc
    simp only [invertersLayoutB] at hc
    rcases List.mem_append.1 hc with h | h
    · exact (blockB_comps_bounds m istart curY inv c h).2.1
    · have := ih (istart + 1) (curY + blockHeightB inv + 150) _ _ c h
      have hbh := blockHeightB_ge inv
      linarith

/-- No component of the SVG-variant inverter loop is a busbar, and all of
them lie at or right of the inverter column. -/
theorem invertersLayoutB_comps_xclass (m : ℚ) :
    ∀ (invs : List Inverter) (istart : Nat) (curY : ℚ) (top bot : Option ℚ),
    ∀ c ∈ (invertersLayoutB m istart curY top bot invs).1,
      c.type ≠ CompType.busbar ∧ m + 200 ≤ c.x := by
  intro invs
  induction invs with
  | nil =>
    intro istart curY top bot c hc
    cases hc
  | cons inv rest ih =>
    intro istart curY top bot c hc
    simp only [invertersLayoutB] at hc
    rcases List.mem_append.1 hc with h | h
    · have hb := (blockB_comps_bounds m istart curY inv c h).1
      rcases hb with ⟨ht, hxx⟩ | ⟨ht, hxx⟩ | ⟨ht, hxx⟩ <;>
        exact ⟨(by rw [ht]; intro hcontra; cases hcontra), by linarith⟩
    · exact ih (istart + 1) (curY + blockHeightB inv + 150) _ _ c h

/-- All components of the SVG-variant inverter loop occupy pairwise disjoint
boxes. -/
theorem invertersLayoutB_pairwise_all (m : ℚ) :
    ∀ (invs : List Inverter) (istart : Nat) (curY : ℚ) (top bot : Option ℚ),
    (invertersLayoutB m istart curY top bot invs).1.Pairwise symbolBoxesDisjoint := by
  intro invs
  induction invs with
  | nil =>
    intro istart curY top bot
    exact List.Pairwise.nil
  | cons inv rest ih =>
    intro istart curY top bot
    simp only [invertersLayoutB]
    refine List.pairwise_append.2 ⟨blockB_pairwise m istart curY inv,
      ih (istart + 1) (curY + blockHeightB inv + 150) _ _, ?_⟩
    intro a ha b hb
    have hab := blockB_comps_bounds m istart curY inv a ha
    have hbb := invertersLayoutB_comps_lb m rest (istart + 1)
      (curY + blockHeightB inv + 150) _ _ b hb
    right; right; left
    linarith [hab.2.2]

/-- The busbar's final X position is the configured margin. -/
theorem busbarFinal_x (opts : Options) (t b : Option ℚ) :
    (busbarFinal opts t b).x = opts.margin := by
  cases t <;> cases b <;> rfl

/-- The busbar keeps the busbar component kind. -/
theorem busbarFinal_type (opts : Options) (t b : Option ℚ) :
    (busbarFinal opts t b).type = CompType.busbar := by
  cases t <;> cases b <;> rfl

/-- The busbar's effective footprint width is its stored width, 20. -/
theorem effWidth_busbarFinal (opts : Options) (t b : Option ℚ) :
    effWidth (busbarFinal opts t b) = 20 := by
  cases t <;> cases b <;> norm_num [busbarFinal, effWidth, orElseNum]

/-- Disjointness transfers from symbol footprints to effective footprints on
lists without busbar components. -/
theorem pairwise_eff_of_symbol (l : List Component)
    (h : ∀ c ∈ l, c.type ≠ CompType.busbar)
    (hp : l.Pairwise symbolBoxesDisjoint) : l.Pairwise effBoxesDisjoint := by
  induction hp with
  | nil => exact List.Pairwise.nil
  | cons hhead _ ih =>
    refine List.Pairwise.cons ?_ (ih ?_)
    · intro b hb
      have ha' := h _ (List.mem_cons_self _ _)
      have hb' := h b (List.mem_cons_of_mem _ hb)
      rw [effBoxesDisjoint, effWidth_of_ne_busbar _ ha', effWidth_of_ne_busbar b hb',
        effHeight_of_ne_busbar _ ha', effHeight_of_ne_busbar b hb']
      exact hhead b hb
    · intro c hc
      exact h c (List.mem_cons_of_mem _ hc)

/-- Claim C1: no two components produced by `generateLayout` overlap (their
closed symbol-footprint boxes have empty intersection), and likewise no two
components produced by `convertToSVG`'s layout overlap under the effective
footprints its canvas-expansion pass uses; in particular consecutive
inverter blocks are separated by the inter-inverter gap, and zero-string
isolators and zero-isolator inverters keep their minimum vertical space. -/
theorem c1_no_overlap (opts : Options) (sys : SystemDescription) :
    (generateLayout opts sys).components.Pairwise symbolBoxesDisjoint
    ∧ (convertToSVGLayout opts sys).1.components.Pairwise symbolBoxesDisjoint
    ∧ (convertToSVGLayout opts sys).1.components.Pairwise effBoxesDisjoint := by
  refine ⟨?_, ?_, ?_⟩
  · exact invertersLayout_pairwise_all opts.margin sys.inverters 0 (opts.margin + 120)
  · show (busbarFinal opts
        (invertersLayoutB opts.margin 0 (opts.margin + 120) none none sys.inverters).2.2.1
        (invertersLayoutB opts.margin 0 (opts.margin + 120) none none sys.inverters).2.2.2
      :: (invertersLayoutB opts.margin 0 (opts.margin + 120) none none
          sys.inverters).1).Pairwise symbolBoxesDisjoint
    refine List.pairwise_cons.2 ⟨?_, ?_⟩
    · intro b hb
      have hcls := invertersLayoutB_comps_xclass opts.margin sys.inverters 0
        (opts.margin + 120) none none b hb
      left
      rw [busbarFinal_type, busbarFinal_x]
      simp only [symbolWidth]
      linarith [hcls.2]
    · exact invertersLayoutB_pairwise_all opts.margin sys.inverters 0
        (opts.margin + 120) none none
  · show (busbarFinal opts
        (invertersLayoutB opts.margin 0 (opts.margin + 120) none none sys.inverters).2.2.1
        (invertersLayoutB opts.margin 0 (opts.margin + 120) none none sys.inverters).2.2.2
      :: (invertersLayoutB opts.margin 0 (opts.margin + 120) none none
          sys.inverters).1).Pairwise effBoxesDisjoint
    refine List.pairwise_cons.2 ⟨?_, ?_⟩
    · intro b hb
      have hcls := invertersLayoutB_comps_xclass opts.margin sys.inverters 0
        (opts.margin + 120) none none b hb
      left
      rw [effWidth_busbarFinal, busbarFinal_x]
      linarith [hcls.2]
    · exact pairwise_eff_of_symbol _
        (fun c hc => (invertersLayoutB_comps_xclass opts.margin sys.inverters 0
          (opts.margin + 120) none none c hc).1)
        (invertersLayoutB_pairwise_all opts.margin sys.inverters 0
          (opts.margin + 120) none none)

end SLD

